import Mathlib

/-!
# Verification of the tyco-js parser core

A shallow embedding, in Lean 4, of the parts of the tyco-js repository that
the specification's claims are about:

* `SourceFragment` (`src/source.ts`): `slice`, `advance`, `clamp`;
* the render pipeline of `TycoValue` (`renderBaseContent`, `renderTemplates`)
  including JS `parseInt` semantics and escape substitution;
* `TycoStruct.loadPrimaryKeys` / `loadReference` and `TycoContext.toObject`;
* the `#include` path-cache logic of `TycoLexer.fromPath` / `process`,
  modelled with explicit fuel to reason about (non-)termination.

JS strings are embedded as `List Char`; JS numbers that may be `NaN` as the
inductive `JSNum`; thrown `TycoError`s as `Except TErr`.  Definitions follow
the TypeScript source; the few places where an unreachable JS dynamic-type
error (`TypeError`) would occur are modelled by the dedicated error value
`TErr.jsTypeError`.
-/

set_option maxRecDepth 4000

namespace Tyco

/-- Error kinds thrown by the parser (`TycoError` carriers, identified by the
message of the `raiseParseError` / `failWithFragment` call site). -/
inductive TErr where
  | duplicatePrimaryKey
  | unknownReference
  | positionalAfterKeyword
  | unknownAttr
  | parentOverflow
  | unresolvedReferenceInTemplate
  | untemplatableType
  | invalidBool
  | unknownType
  | typeMismatch
  | expectedArray
  | attrsNotSet
  | emptyTemplate
  | doubleRender
  | badReferenceType
  | jsTypeError
  deriving DecidableEq, Repr

/-- A JS number that is either `NaN` or an integer (the only numbers the
embedded code paths produce). -/
inductive JSNum where
  | nan
  | num (v : Int)
  deriving DecidableEq, Repr

/-- `clamp(value, min, max)` from `src/source.ts`: `NaN` collapses to `min`,
otherwise `Math.min(Math.max(value, min), max)`.  Used only with
`0 ≤ lo ≤ hi`, so the result is returned as a `Nat`. -/
def clamp (value : JSNum) (lo hi : Nat) : Nat :=
  match value with
  | .nan => lo
  | .num v => (min (max v (lo : Int)) (hi : Int)).toNat

/-- A `SourceFragment` (`src/source.ts`): a slice of source text with its
1-based row/column and diagnostic metadata. -/
structure SourceFragment where
  text : List Char
  row : Nat
  column : Nat
  source : Option String
  lineText : Option (List Char)
  deriving DecidableEq, Repr

namespace SourceFragment

/-- The character loop inside `SourceFragment.advance`: `'\n'` bumps the row
and resets the column, `'\r'` resets the column, anything else advances the
column. -/
def advanceChars : List Char → Nat × Nat → Nat × Nat
  | [], rc => rc
  | c :: cs, (r, col) =>
      advanceChars cs
        (if c = '\n' then (r + 1, 1) else if c = '\r' then (r, 1) else (r, col + 1))

/-- `SourceFragment.advance(offset)`: clamps the offset into
`[0, text.length]` and walks that many characters. -/
def advance (f : SourceFragment) (offset : Int) : Nat × Nat :=
  let length := min (max offset 0) (f.text.length : Int)
  advanceChars (f.text.take length.toNat) (f.row, f.column)

/-- `SourceFragment.slice(start, end?)`: clamps both bounds, takes the
corresponding substring, and advances row/column over the consumed lead. -/
def slice (f : SourceFragment) (start : JSNum) (stop : Option JSNum) : SourceFragment :=
  let actualStart := clamp start 0 f.text.length
  let actualEnd := clamp (stop.getD (JSNum.num f.text.length)) actualStart f.text.length
  let newText := (f.text.drop actualStart).take (actualEnd - actualStart)
  let rc := f.advance (actualStart : Int)
  { text := newText, row := rc.1, column := rc.2, source := f.source, lineText := f.lineText }

/-- One step of the `advance` loop, as a function of a single character. -/
def stepChar (c : Char) (rc : Nat × Nat) : Nat × Nat :=
  if c = '\n' then (rc.1 + 1, 1) else if c = '\r' then (rc.1, 1) else (rc.1, rc.2 + 1)

theorem advanceChars_cons (c : Char) (cs : List Char) (rc : Nat × Nat) :
    advanceChars (c :: cs) rc = advanceChars cs (stepChar c rc) := by
  cases rc; rfl

theorem advanceChars_append (l : List Char) (c : Char) (rc : Nat × Nat) :
    advanceChars (l ++ [c]) rc = stepChar c (advanceChars l rc) := by
  induction l generalizing rc with
  | nil => cases rc; rfl
  | cons d ds ih =>
      rw [List.cons_append, advanceChars_cons, advanceChars_cons, ih]

/-- Closed-form description of the `advance` loop: the row grows by the number
of newlines consumed; the column is reset by newlines and carriage returns and
otherwise counts the characters since the last such reset. -/
theorem advanceChars_spec (l : List Char) (r col : Nat) :
    advanceChars l (r, col) =
      (r + l.countP (fun c => c == '\n'),
       if l.any (fun c => c == '\n' || c == '\r') then
         (l.reverse.takeWhile (fun c => !(c == '\n' || c == '\r'))).length + 1
       else col + l.length) := by
  induction l using List.reverseRecOn with
  | nil => simp [advanceChars]
  | append_singleton l c ih =>
      rw [advanceChars_append, ih]
      by_cases hn : c = '\n'
      · subst hn
        simp [stepChar, List.countP_append, List.takeWhile]
        omega
      · by_cases hr : c = '\r'
        · subst hr
          simp [stepChar, List.countP_append, List.takeWhile, List.countP_cons]
        · have hcn : (c == '\n') = false := by simp [hn]
          have hcr : (c == '\r') = false := by simp [hr]
          by_cases hany : l.any (fun c => c == '\n' || c == '\r')
          · simp [stepChar, hn, hr, List.countP_append, List.countP_cons, hcn, hcr,
              hany, List.takeWhile, List.takeWhile_cons]
          · simp only [List.any_eq_true] at hany
            simp [stepChar, hn, hr, List.countP_append, List.countP_cons, hcn, hcr,
              List.any_append, List.any_eq_true, hany, List.takeWhile_cons]
            split <;> omega

theorem clamp_bounds (v : JSNum) (lo hi : Nat) (h : lo ≤ hi) :
    lo ≤ clamp v lo hi ∧ clamp v lo hi ≤ hi := by
  cases v with
  | nan => exact ⟨le_refl _, h⟩
  | num n =>
      simp only [clamp, min_def, max_def]
      split_ifs <;> constructor <;> omega

theorem clamp_num_of_le (k hi : Nat) (hk : k ≤ hi) : clamp (JSNum.num k) 0 hi = k := by
  simp only [clamp, min_def, max_def]
  split_ifs <;> omega

theorem drop_take_isInfix (l : List Char) (a k : Nat) : (l.drop a).take k <:+: l :=
  ⟨l.take a, (l.drop a).drop k, by
    rw [List.append_assoc, List.take_append_drop, List.take_append_drop]⟩

/-- C10: `SourceFragment.slice` is total: for every fragment and all start/end
arguments (negative, `NaN`, or past the end included) it never throws; both
bounds are clamped into `[0, text.length]` with the end bound at least the
start bound, and the resulting text is a contiguous substring of the
original text. -/
theorem c10_slice_total (f : SourceFragment) (start : JSNum) (stop : Option JSNum) :
    clamp start 0 f.text.length ≤
        clamp (stop.getD (JSNum.num f.text.length)) (clamp start 0 f.text.length)
          f.text.length ∧
    clamp (stop.getD (JSNum.num f.text.length)) (clamp start 0 f.text.length)
        f.text.length ≤ f.text.length ∧
    (f.slice start stop).text =
      (f.text.drop (clamp start 0 f.text.length)).take
        (clamp (stop.getD (JSNum.num f.text.length)) (clamp start 0 f.text.length)
            f.text.length -
          clamp start 0 f.text.length) ∧
    (f.slice start stop).text <:+: f.text := by
  have ha := clamp_bounds start 0 f.text.length (Nat.zero_le _)
  have hb := clamp_bounds (stop.getD (JSNum.num f.text.length))
    (clamp start 0 f.text.length) f.text.length ha.2
  refine ⟨hb.1, hb.2, rfl, ?_⟩
  exact drop_take_isInfix _ _ _

/-- The row/column advance exactly as claim C8 words it: each newline
increments the row and resets the column to 1, and every other character
(carriage returns included) increments the column by 1. -/
def claimAdvanceChars : List Char → Nat × Nat → Nat × Nat
  | [], rc => rc
  | c :: cs, (r, col) =>
      claimAdvanceChars cs (if c = '\n' then (r + 1, 1) else (r, col + 1))

/-- C8 counterexample: on a fragment whose text begins with a carriage
return, `slice 1` resets the column to 1, while the claim's advance rule
(`every other character increments column by 1`) demands column 6. -/
theorem c8_counterexample :
    (SourceFragment.slice ⟨['\r', 'x'], 1, 5, none, none⟩ (JSNum.num 1) none).column = 1 ∧
    (claimAdvanceChars ((['\r', 'x'] : List Char).take 1) (1, 5)).2 = 6 ∧
    (1 : Nat) ≠ 6 := by
  refine ⟨?_, ?_, by decide⟩ <;> decide

/-- C8 (amended): for `k ≤ text.length`, `slice k` yields a fragment whose
row is the original row advanced by the number of newlines among the `k`
consumed characters, and whose column counts the characters after the last
newline or carriage return (plus 1), or advances by `k` when no newline or
carriage return was consumed — i.e. newlines bump the row and reset the
column, carriage returns reset the column without bumping the row, and every
other character increments the column. -/
theorem c8_slice_row_column (f : SourceFragment) (k : Nat) (hk : k ≤ f.text.length) :
    (f.slice (JSNum.num k) none).row =
        f.row + (f.text.take k).countP (fun c => c == '\n') ∧
    (f.slice (JSNum.num k) none).column =
        (if (f.text.take k).any (fun c => c == '\n' || c == '\r') then
          ((f.text.take k).reverse.takeWhile (fun c => !(c == '\n' || c == '\r'))).length + 1
        else f.column + k) := by
  have hstart : clamp (JSNum.num k) 0 f.text.length = k := clamp_num_of_le k _ hk
  have hlen : (min (max (k : Int) 0) (f.text.length : Int)).toNat = k := by omega
  simp only [slice, advance, hstart, hlen, advanceChars_spec]
  refine ⟨trivial, ?_⟩
  simp [List.length_take, min_eq_left hk]

/-- Witness for C8's amended theorem at the fragment `"ab\ncd"`, `k = 4`. -/
theorem c8_slice_row_column_witness :
    (SourceFragment.slice ⟨['a', 'b', '\n', 'c', 'd'], 1, 1, none, none⟩
        (JSNum.num ((4 : Nat) : Int)) none).row = 2 ∧
    (SourceFragment.slice ⟨['a', 'b', '\n', 'c', 'd'], 1, 1, none, none⟩
        (JSNum.num ((4 : Nat) : Int)) none).column = 2 := by
  have h := c8_slice_row_column ⟨['a', 'b', '\n', 'c', 'd'], 1, 1, none, none⟩ 4 (by decide)
  refine ⟨?_, ?_⟩
  · rw [h.1]; decide
  · rw [h.2]; decide

end SourceFragment

/-! ## Rendered primitive values and base rendering (`TycoValue.renderBaseContent`) -/

/-- A rendered primitive value.  `vNaN` models the JS `NaN` produced by a
failed `parseInt`; `vFloatRaw` keeps the raw content of `float`/`decimal`
primitives (the source parses them with IEEE-754 `parseFloat`, which no claim
inspects, so the double itself is left abstract). -/
inductive RVal where
  | vNull
  | vStr (s : List Char)
  | vInt (n : Int)
  | vNaN
  | vBool (b : Bool)
  | vFloatRaw (content : List Char)
  deriving DecidableEq, Repr

/-- ASCII JS whitespace (the `\s`-class characters that can occur in the
embedded code paths; exotic Unicode spaces are not produced by the lexer). -/
def isJsWhitespace (c : Char) : Bool :=
  c = ' ' || c = '\t' || c = '\n' || c = '\r' || c = '\x0b' || c = '\x0c'

/-- `String.prototype.trim` (both ends). -/
def jsTrim (l : List Char) : List Char :=
  ((l.dropWhile isJsWhitespace).reverse.dropWhile isJsWhitespace).reverse

def isDigit (c : Char) : Bool := '0' ≤ c && c ≤ '9'

/-- The numeric value `parseInt` assigns to one character: `'0'`-`'9'`
(codes 48-57), `'a'`-`'z'` (97-122, value 10+), `'A'`-`'Z'` (65-90,
value 10+). -/
def digitValue (c : Char) : Option Nat :=
  if 48 ≤ c.toNat ∧ c.toNat ≤ 57 then some (c.toNat - 48)
  else if 97 ≤ c.toNat ∧ c.toNat ≤ 122 then some (c.toNat - 97 + 10)
  else if 65 ≤ c.toNat ∧ c.toNat ≤ 90 then some (c.toNat - 65 + 10)
  else none

/-- The longest leading run of digits valid in the given radix. -/
def takeDigits (radix : Nat) : List Char → List Nat
  | [] => []
  | c :: cs =>
      match digitValue c with
      | some d => if d < radix then d :: takeDigits radix cs else []
      | none => []

def digitsToNat (radix : Nat) (ds : List Nat) : Nat :=
  ds.foldl (fun acc d => acc * radix + d) 0

/-- ECMAScript `parseInt(string, radix)` for the radixes 2, 8, 10, 16 used by
the parser: skip leading whitespace, read an optional sign, strip a `0x`/`0X`
marker when the radix is 16, then take the longest valid digit run; an empty
run gives `NaN` (modelled as `none`). -/
def jsSignOf (s1 : List Char) : Int :=
  if s1.head? = some '-' then -1 else 1

def jsAfterSign (s1 : List Char) : List Char :=
  if s1.head? = some '-' ∨ s1.head? = some '+' then s1.tail else s1

def jsStrip0x (radix : Nat) (s2 : List Char) : List Char :=
  if radix = 16 ∧ s2.head? = some '0' ∧
      (s2.tail.head? = some 'x' ∨ s2.tail.head? = some 'X') then
    s2.tail.tail
  else s2

def parseIntJS (s : List Char) (radix : Nat) : Option Int :=
  let s1 := s.dropWhile isJsWhitespace
  let ds := takeDigits radix (jsStrip0x radix (jsAfterSign s1))
  if ds.isEmpty then none else some (jsSignOf s1 * (digitsToNat radix ds : Int))

/-- The sign factor read by the `int` branch of `renderBaseContent`. -/
def intSign (content : List Char) : Int :=
  if content.head? = some '-' then -1 else 1

/-- The digit string after the optional leading sign. -/
def intAfterSign (content : List Char) : List Char :=
  if content.head? = some '-' ∨ content.head? = some '+' then content.tail else content

/-- Base selection of the `int` branch: `0x/0X` → 16, `0o/0O` → 8,
`0b/0B` → 2, otherwise 10 (keeping the digits unchanged). -/
def intBaseAndDigits (digits : List Char) : Nat × List Char :=
  if digits.head? = some '0' ∧ (digits.tail.head? = some 'x' ∨ digits.tail.head? = some 'X') then
    (16, digits.tail.tail)
  else if digits.head? = some '0' ∧ (digits.tail.head? = some 'o' ∨ digits.tail.head? = some 'O') then
    (8, digits.tail.tail)
  else if digits.head? = some '0' ∧ (digits.tail.head? = some 'b' ∨ digits.tail.head? = some 'B') then
    (2, digits.tail.tail)
  else (10, digits)

/-- The `int` branch of `renderBaseContent`:
`rendered = sign * parseInt(digits, base)`. -/
def renderIntContent (content : List Char) : RVal :=
  let sign := intSign content
  let digits := intAfterSign content
  let bd := intBaseAndDigits digits
  match parseIntJS bd.2 bd.1 with
  | none => RVal.vNaN
  | some v => RVal.vInt (sign * v)

/-- `padEnd(6, '0').slice(0, 6)` applied to a fraction-digit run. -/
def padSixTruncate (ds : List Char) : List Char :=
  (ds ++ List.replicate (6 - ds.length) '0').take 6

/-- The regex match `^(\d{2}:\d{2}:\d{2})(\.(\d+))?$` of
`normalizeTimeLiteral`: the base `HH:MM:SS` text plus the optional fraction
digits. -/
def timeMatch (l : List Char) : Option (List Char × Option (List Char)) :=
  match l with
  | h1 :: h2 :: ':' :: m1 :: m2 :: ':' :: s1 :: s2 :: rest =>
      if isDigit h1 && isDigit h2 && isDigit m1 && isDigit m2 && isDigit s1 && isDigit s2 then
        let base := [h1, h2, ':', m1, m2, ':', s1, s2]
        match rest with
        | [] => some (base, none)
        | '.' :: ds => if !ds.isEmpty && ds.all isDigit then some (base, some ds) else none
        | _ => none
      else none
  | _ => none

/-- `normalizeTimeLiteral` from the source: trim, and when the text matches
`HH:MM:SS(.fff...)?`, right-pad/truncate the fraction to 6 digits. -/
def normalizeTimeLiteral (value : List Char) : List Char :=
  let trimmed := jsTrim value
  match timeMatch trimmed with
  | none => trimmed
  | some (base, none) => base
  | some (base, some fraction) => base ++ '.' :: padSixTruncate fraction

/-- Replace the first space by `T` (the `indexOf(' ')` splice in
`normalizeDateTimeLiteral`; identity when there is no space). -/
def replaceFirstSpace : List Char → List Char
  | [] => []
  | ' ' :: rest => 'T' :: rest
  | c :: rest => c :: replaceFirstSpace rest

/-- Timezone extraction of `normalizeDateTimeLiteral`: a trailing `Z` becomes
`+00:00`; otherwise a trailing `±HH:MM` is split off; otherwise no timezone. -/
def datetimeSplitTz (l : List Char) : List Char × List Char :=
  if l.getLast? = some 'Z' then (l.dropLast, ['+', '0', '0', ':', '0', '0'])
  else
    match l.reverse with
    | m2 :: m1 :: ':' :: h2 :: h1 :: s :: rest =>
        if (s = '+' ∨ s = '-') && isDigit h1 && isDigit h2 && isDigit m1 && isDigit m2 then
          (rest.reverse, [s, h1, h2, ':', m1, m2])
        else (l, [])
    | _ => (l, [])

/-- Split at the last `.` (`lastIndexOf('.')`): text before the dot and the
part after it; `none` when there is no dot. -/
def splitAtLastDot (l : List Char) : Option (List Char × List Char) :=
  let r := l.reverse
  let frac := r.takeWhile (fun c => c ≠ '.')
  if frac.length = r.length then none
  else some ((r.drop (frac.length + 1)).reverse, frac.reverse)

/-- Fraction normalization of `normalizeDateTimeLiteral`: when the text after
the last dot is a nonempty digit run, right-pad/truncate it to 6 digits. -/
def datetimeNormalizeFraction (l : List Char) : List Char :=
  match splitAtLastDot l with
  | none => l
  | some (before, fraction) =>
      if !fraction.isEmpty && fraction.all isDigit then
        before ++ '.' :: padSixTruncate fraction
      else l

/-- `normalizeDateTimeLiteral` from the source: trim, first space → `T`,
split the timezone off, normalize the fraction, re-append the timezone. -/
def normalizeDateTimeLiteral (value : List Char) : List Char :=
  let normalized := replaceFirstSpace (jsTrim value)
  let ct := datetimeSplitTz normalized
  datetimeNormalizeFraction ct.1 ++ ct.2

/-- `String.prototype.substring(start, end)`: NaN-free form — both indices
are clamped into `[0, length]` and swapped when `start > end`. -/
def jsSubstring (s : List Char) (start finish : Int) : List Char :=
  let a := (min (max start 0) (s.length : Int)).toNat
  let b := (min (max finish 0) (s.length : Int)).toNat
  (s.take (max a b)).drop (min a b)

/-- `os.EOL` on the POSIX platforms the test-suite runs on. -/
def EOL : List Char := ['\n']

/-- `String.prototype.startsWith` on character lists. -/
def startsWithL : List Char → List Char → Bool
  | [], _ => true
  | _ :: _, [] => false
  | p :: ps, c :: cs => p = c && startsWithL ps cs

/-- The delimiter stripping of the `str` branch of `renderBaseContent`:
triple quotes strip 3 from each end and drop one leading EOL; single quotes
strip 1 from each end; anything else is kept as is. -/
def renderStrContent (content : List Char) : List Char :=
  if startsWithL ['\'', '\'', '\''] content ∨ startsWithL ['"', '"', '"'] content then
    let c := jsSubstring content 3 ((content.length : Int) - 3)
    if startsWithL EOL c then jsSubstring c 1 (c.length : Int) else c
  else if startsWithL ['\''] content ∨ startsWithL ['"'] content then
    jsSubstring content 1 ((content.length : Int) - 1)
  else content

/-- The mutable state of a `TycoValue`: schema fields (`none` models the JS
`null`/`undefined` of an unset field), the raw content, the literal-string
flag and the `rendered` slot (`none` models the `UNRENDERED` sentinel). -/
structure VState where
  typeName : Option String
  attrName : Option String
  isNullable : Option Bool
  isArray : Option Bool
  content : List Char
  isLiteralStr : Bool
  rendered : Option RVal
  deriving DecidableEq, Repr

def BASE_TYPES : List String :=
  ["str", "int", "bool", "float", "decimal", "date", "time", "datetime"]

def nullChars : List Char := ['n', 'u', 'l', 'l']

/-- `TycoValue.applySchemaInfo` for a call that passes the full
`{typeName, attrName, isNullable, isArray}` record (the calls made by
`loadReference` and `resolveCompleteKwargs`).  `tn = none` models the JS
`undefined` looked up for an unknown attribute: the `BASE_TYPES` membership
test then fails. -/
def applySchemaInfoV (tn : Option String) (an : String) (nb ar : Bool) (v : VState) :
    Except TErr VState :=
  let v := { v with typeName := tn, attrName := some an,
                    isNullable := some nb, isArray := some ar }
  if v.isArray = some true ∧ ¬(v.isNullable = some true ∧ v.content = nullChars) then
    .error .expectedArray
  else
    match v.typeName with
    | some t => if t ∈ BASE_TYPES then .ok v else .error .typeMismatch
    | none => .error .typeMismatch

/-- `TycoValue.renderBaseContent`: null short-circuit, then one branch per
base type.  The `float`/`decimal` branches keep the raw content (IEEE-754
`parseFloat` left abstract); all other branches follow the source. -/
def VState.renderBaseContent (v : VState) : Except TErr VState :=
  if v.typeName = none ∨ v.attrName = none ∨ v.isNullable = none ∨ v.isArray = none then
    .error .attrsNotSet
  else if v.isNullable = some true ∧ v.content = nullChars then
    .ok { v with rendered := some RVal.vNull }
  else if v.typeName = some "str" then
    .ok { v with isLiteralStr := startsWithL ['\''] v.content,
                 rendered := some (RVal.vStr (renderStrContent v.content)) }
  else if v.typeName = some "int" then
    .ok { v with rendered := some (renderIntContent v.content) }
  else if v.typeName = some "float" then
    .ok { v with rendered := some (RVal.vFloatRaw v.content) }
  else if v.typeName = some "decimal" then
    .ok { v with rendered := some (RVal.vFloatRaw v.content) }
  else if v.typeName = some "bool" then
    if v.content = ['t', 'r', 'u', 'e'] then
      .ok { v with rendered := some (RVal.vBool true) }
    else if v.content = ['f', 'a', 'l', 's', 'e'] then
      .ok { v with rendered := some (RVal.vBool false) }
    else .error .invalidBool
  else if v.typeName = some "date" then
    .ok { v with rendered := some (RVal.vStr v.content) }
  else if v.typeName = some "time" then
    .ok { v with rendered := some (RVal.vStr (normalizeTimeLiteral v.content)) }
  else if v.typeName = some "datetime" then
    .ok { v with rendered := some (RVal.vStr (normalizeDateTimeLiteral v.content)) }
  else .error .unknownType

/-! ### Facts about digits and `parseInt` -/

/-- Every character of `ds` is a digit valid in `base`. -/
def validDigits (base : Nat) (ds : List Char) : Bool :=
  ds.all (fun c =>
    match digitValue c with
    | some d => decide (d < base)
    | none => false)

theorem validDigits_mem {base : Nat} {ds : List Char} (h : validDigits base ds = true)
    (c : Char) (hc : c ∈ ds) : ∃ d, digitValue c = some d ∧ d < base := by
  have hall := (List.all_eq_true.mp h) c hc
  cases hdv : digitValue c with
  | none => rw [hdv] at hall; exact absurd hall (by simp)
  | some d => rw [hdv] at hall; exact ⟨d, rfl, by simpa using hall⟩

theorem digitValue_shape {c : Char} {d : Nat} (h : digitValue c = some d) :
    (48 ≤ c.toNat ∧ c.toNat ≤ 57 ∧ d = c.toNat - 48) ∨
    (97 ≤ c.toNat ∧ c.toNat ≤ 122 ∧ d = c.toNat - 97 + 10) ∨
    (65 ≤ c.toNat ∧ c.toNat ≤ 90 ∧ d = c.toNat - 65 + 10) := by
  unfold digitValue at h
  split_ifs at h with h1 h2 h3
  · exact Or.inl ⟨h1.1, h1.2, by injection h with h'; omega⟩
  · exact Or.inr (Or.inl ⟨h2.1, h2.2, by injection h with h'; omega⟩)
  · exact Or.inr (Or.inr ⟨h3.1, h3.2, by injection h with h'; omega⟩)

theorem digitValue_ge {c : Char} {d : Nat} (h : digitValue c = some d) : 48 ≤ c.toNat := by
  rcases digitValue_shape h with ⟨h1, _, _⟩ | ⟨h1, _, _⟩ | ⟨h1, _, _⟩ <;> omega

theorem digitValue_not_ws {c : Char} {d : Nat} (h : digitValue c = some d) :
    isJsWhitespace c = false := by
  have hge := digitValue_ge h
  by_contra hw
  simp only [Bool.not_eq_false, isJsWhitespace, Bool.or_eq_true, decide_eq_true_eq] at hw
  rcases hw with ((((h1 | h1) | h1) | h1) | h1) | h1 <;> subst h1 <;>
    exact absurd hge (by decide)

theorem takeDigits_of_valid {base : Nat} {ds : List Char} (h : validDigits base ds = true) :
    takeDigits base ds = ds.map (fun c => (digitValue c).getD 0) := by
  induction ds with
  | nil => rfl
  | cons c cs ih =>
      obtain ⟨d, hd, hlt⟩ := validDigits_mem h c (List.mem_cons_self c cs)
      have hcs : validDigits base cs = true := by
        simp only [validDigits, List.all_cons, Bool.and_eq_true] at h
        exact h.2
      simp only [takeDigits, hd, hlt, if_true, List.map_cons, ih hcs, Option.getD_some]

/-- `parseInt(ds, base)` on a nonempty all-valid digit run returns the
positional value of the digits. -/
theorem parseIntJS_of_valid (base : Nat) (c0 : Char) (rest : List Char)
    (hbase : base ≤ 16)
    (hd : validDigits base (c0 :: rest) = true) :
    parseIntJS (c0 :: rest) base =
      some ((digitsToNat base ((c0 :: rest).map (fun c => (digitValue c).getD 0)) : Nat) : Int) := by
  obtain ⟨d0, hd0, hlt0⟩ := validDigits_mem hd c0 (List.mem_cons_self _ _)
  have hws : isJsWhitespace c0 = false := digitValue_not_ws hd0
  have hge : 48 ≤ c0.toNat := digitValue_ge hd0
  have hdw : List.dropWhile isJsWhitespace (c0 :: rest) = c0 :: rest := by
    simp [List.dropWhile_cons, hws]
  have hc0m : ¬(c0 = '-') := fun he => by subst he; exact absurd hge (by decide)
  have hc0p : ¬(c0 = '+') := fun he => by subst he; exact absurd hge (by decide)
  have hx : ¬(base = 16 ∧ c0 = '0' ∧ (rest.head? = some 'x' ∨ rest.head? = some 'X')) := by
    rintro ⟨hb, h0, hxx⟩
    cases rest with
    | nil => simp at hxx
    | cons c1 r2 =>
        obtain ⟨d1, hd1, hlt1⟩ := validDigits_mem hd c1 (by simp)
        simp only [List.head?_cons, Option.some.injEq] at hxx
        have hsh := digitValue_shape hd1
        have hx120 : ('x').toNat = 120 := by decide
        have hX88 : ('X').toNat = 88 := by decide
        subst hb
        rcases hxx with h1 | h1 <;> subst h1 <;>
          rcases hsh with ⟨a, b, e⟩ | ⟨a, b, e⟩ | ⟨a, b, e⟩ <;> omega
  have hds : takeDigits base (c0 :: rest) = (c0 :: rest).map (fun c => (digitValue c).getD 0) :=
    takeDigits_of_valid hd
  have hsg : jsSignOf (c0 :: rest) = 1 := by
    simp [jsSignOf, hc0m]
  have haf : jsAfterSign (c0 :: rest) = c0 :: rest := by
    simp [jsAfterSign, hc0m, hc0p]
  have hstrip : jsStrip0x base (c0 :: rest) = c0 :: rest := by
    unfold jsStrip0x
    rw [if_neg]
    intro hcon
    exact hx ⟨hcon.1, by simpa using hcon.2.1, by simpa using hcon.2.2⟩
  unfold parseIntJS
  rw [hdw]
  simp only [haf, hstrip, hds, hsg]
  simp

theorem intSign_cons (c : Char) (l : List Char) (h : ¬c = '-') : intSign (c :: l) = 1 := by
  unfold intSign
  rw [if_neg]
  simp only [List.head?_cons, Option.some.injEq]
  exact h

theorem intSign_neg (l : List Char) : intSign ('-' :: l) = -1 := by
  unfold intSign
  rw [if_pos]
  rfl

theorem intAfterSign_cons (c : Char) (l : List Char) (hm : ¬c = '-') (hp : ¬c = '+') :
    intAfterSign (c :: l) = c :: l := by
  unfold intAfterSign
  rw [if_neg]
  simp only [List.head?_cons, Option.some.injEq]
  tauto

theorem intAfterSign_sign (c : Char) (l : List Char) (h : c = '-' ∨ c = '+') :
    intAfterSign (c :: l) = l := by
  unfold intAfterSign
  rw [if_pos]
  · rfl
  · simp only [List.head?_cons, Option.some.injEq]
    tauto

theorem intBaseAndDigits_marker16 (m : Char) (ds : List Char) (h : m = 'x' ∨ m = 'X') :
    intBaseAndDigits ('0' :: m :: ds) = (16, ds) := by
  unfold intBaseAndDigits
  rw [if_pos ⟨rfl, h.imp (fun e => by rw [e]; rfl) (fun e => by rw [e]; rfl)⟩]
  rfl

theorem intBaseAndDigits_marker8 (m : Char) (ds : List Char) (h : m = 'o' ∨ m = 'O') :
    intBaseAndDigits ('0' :: m :: ds) = (8, ds) := by
  unfold intBaseAndDigits
  rw [if_neg (fun hcon => by
    rcases hcon.2 with hc | hc <;>
      simp only [List.tail_cons, List.head?_cons, Option.some.injEq] at hc <;>
      rcases h with h' | h' <;> subst h' <;> exact absurd hc (by decide))]
  rw [if_pos ⟨rfl, h.imp (fun e => by rw [e]; rfl) (fun e => by rw [e]; rfl)⟩]
  rfl

theorem intBaseAndDigits_marker2 (m : Char) (ds : List Char) (h : m = 'b' ∨ m = 'B') :
    intBaseAndDigits ('0' :: m :: ds) = (2, ds) := by
  unfold intBaseAndDigits
  rw [if_neg (fun hcon => by
    rcases hcon.2 with hc | hc <;>
      simp only [List.tail_cons, List.head?_cons, Option.some.injEq] at hc <;>
      rcases h with h' | h' <;> subst h' <;> exact absurd hc (by decide))]
  rw [if_neg (fun hcon => by
    rcases hcon.2 with hc | hc <;>
      simp only [List.tail_cons, List.head?_cons, Option.some.injEq] at hc <;>
      rcases h with h' | h' <;> subst h' <;> exact absurd hc (by decide))]
  rw [if_pos ⟨rfl, h.imp (fun e => by rw [e]; rfl) (fun e => by rw [e]; rfl)⟩]
  rfl

/-- When every character after the head is a decimal digit, no base marker is
detected and the base stays 10. -/
theorem intBaseAndDigits_plain (c0 : Char) (rest : List Char)
    (hhead : ∀ m, rest.head? = some m → 48 ≤ m.toNat ∧ m.toNat ≤ 57) :
    intBaseAndDigits (c0 :: rest) = (10, c0 :: rest) := by
  have hno : ∀ m : Char, 57 < m.toNat ∨ m.toNat < 48 →
      ¬((c0 :: rest).tail.head? = some m) := by
    intro m hm hcon
    simp only [List.tail_cons] at hcon
    have := hhead m hcon
    omega
  unfold intBaseAndDigits
  rw [if_neg (fun hcon => hcon.2.elim (hno 'x' (by decide)) (hno 'X' (by decide)))]
  rw [if_neg (fun hcon => hcon.2.elim (hno 'o' (by decide)) (hno 'O' (by decide)))]
  rw [if_neg (fun hcon => hcon.2.elim (hno 'b' (by decide)) (hno 'B' (by decide)))]

/-- C6: base rendering of an `int` Primitive parses an optional leading sign,
then a `0x/0X` (base 16), `0o/0O` (base 8) or `0b/0B` (base 2) marker — no
marker meaning base 10 — and renders the sign applied to the positional value
of the digit run. -/
theorem c6_renderInt (sgn pre ds : List Char) (base : Nat)
    (hs : sgn = [] ∨ sgn = ['+'] ∨ sgn = ['-'])
    (hp : (pre = [] ∧ base = 10) ∨ (pre = ['0', 'x'] ∧ base = 16) ∨
      (pre = ['0', 'X'] ∧ base = 16) ∨ (pre = ['0', 'o'] ∧ base = 8) ∨
      (pre = ['0', 'O'] ∧ base = 8) ∨ (pre = ['0', 'b'] ∧ base = 2) ∨
      (pre = ['0', 'B'] ∧ base = 2))
    (hne : ds ≠ [])
    (hd : validDigits base ds = true) :
    renderIntContent (sgn ++ pre ++ ds) =
      RVal.vInt ((if sgn = ['-'] then -1 else 1) *
        (digitsToNat base (ds.map (fun c => (digitValue c).getD 0)) : Int)) := by
  obtain ⟨c0, rest, rfl⟩ : ∃ c0 r, ds = c0 :: r := by
    cases ds with
    | nil => exact absurd rfl hne
    | cons a l => exact ⟨a, l, rfl⟩
  obtain ⟨d0, hd0, hlt0⟩ := validDigits_mem hd c0 (List.mem_cons_self _ _)
  have hge0 := digitValue_ge hd0
  have hbase16 : base ≤ 16 := by
    rcases hp with ⟨_, h⟩ | ⟨_, h⟩ | ⟨_, h⟩ | ⟨_, h⟩ | ⟨_, h⟩ | ⟨_, h⟩ | ⟨_, h⟩ <;> omega
  have hparse := parseIntJS_of_valid base c0 rest hbase16 hd
  have hc0m : ¬c0 = '-' := fun he => by subst he; exact absurd hge0 (by decide)
  have hc0p : ¬c0 = '+' := fun he => by subst he; exact absurd hge0 (by decide)
  have hhead0 : pre = [] ∨ ∃ m, pre = ['0', m] := by
    rcases hp with ⟨h, _⟩ | ⟨h, _⟩ | ⟨h, _⟩ | ⟨h, _⟩ | ⟨h, _⟩ | ⟨h, _⟩ | ⟨h, _⟩ <;>
      subst h
    · exact Or.inl rfl
    all_goals exact Or.inr ⟨_, rfl⟩
  have hbd : intBaseAndDigits (pre ++ c0 :: rest) = (base, c0 :: rest) := by
    rcases hp with ⟨h, hb⟩ | ⟨h, hb⟩ | ⟨h, hb⟩ | ⟨h, hb⟩ | ⟨h, hb⟩ | ⟨h, hb⟩ | ⟨h, hb⟩ <;>
      subst h <;> subst hb
    · have hhead : ∀ m, rest.head? = some m → 48 ≤ m.toNat ∧ m.toNat ≤ 57 := by
        intro m hm
        cases rest with
        | nil => cases hm
        | cons c1 r2 =>
            simp only [List.head?_cons, Option.some.injEq] at hm
            subst hm
            obtain ⟨d1, hd1, hlt1⟩ := validDigits_mem hd c1 (by simp)
            rcases digitValue_shape hd1 with ⟨a, b, e⟩ | ⟨a, b, e⟩ | ⟨a, b, e⟩ <;> omega
      exact intBaseAndDigits_plain c0 rest hhead
    · exact intBaseAndDigits_marker16 'x' _ (Or.inl rfl)
    · exact intBaseAndDigits_marker16 'X' _ (Or.inr rfl)
    · exact intBaseAndDigits_marker8 'o' _ (Or.inl rfl)
    · exact intBaseAndDigits_marker8 'O' _ (Or.inr rfl)
    · exact intBaseAndDigits_marker2 'b' _ (Or.inl rfl)
    · exact intBaseAndDigits_marker2 'B' _ (Or.inr rfl)
  have hA1 : intSign (sgn ++ pre ++ c0 :: rest) = (if sgn = ['-'] then (-1 : Int) else 1) := by
    rcases hs with h | h | h <;> subst h
    · rw [if_neg (by decide)]
      rcases hhead0 with h | ⟨m, h⟩ <;> subst h
      · exact intSign_cons c0 rest hc0m
      · exact intSign_cons '0' _ (by decide)
    · rw [if_neg (by decide)]
      exact intSign_cons '+' _ (by decide)
    · rw [if_pos rfl]
      exact intSign_neg _
  have hA2 : intAfterSign (sgn ++ pre ++ c0 :: rest) = pre ++ c0 :: rest := by
    rcases hs with h | h | h <;> subst h
    · rcases hhead0 with h | ⟨m, h⟩ <;> subst h
      · exact intAfterSign_cons c0 rest hc0m hc0p
      · exact intAfterSign_cons '0' _ (by decide) (by decide)
    · exact intAfterSign_sign '+' _ (Or.inr rfl)
    · exact intAfterSign_sign '-' _ (Or.inl rfl)
  unfold renderIntContent
  simp only [hA1, hA2, hbd, hparse]

/-- Witness for C6 at the spec's seed literals `0xFF`, `0o777`, `0b1010`, and
a signed literal `-0xFF`. -/
theorem c6_renderInt_witness :
    renderIntContent ['0', 'x', 'F', 'F'] = RVal.vInt 255 ∧
    renderIntContent ['0', 'o', '7', '7', '7'] = RVal.vInt 511 ∧
    renderIntContent ['0', 'b', '1', '0', '1', '0'] = RVal.vInt 10 ∧
    renderIntContent ['-', '0', 'x', 'F', 'F'] = RVal.vInt (-255) := by
  refine ⟨?_, ?_, ?_, ?_⟩
  · exact (c6_renderInt [] ['0', 'x'] ['F', 'F'] 16 (Or.inl rfl)
      (Or.inr (Or.inl ⟨rfl, rfl⟩)) (by decide) (by decide)).trans (by decide)
  · exact (c6_renderInt [] ['0', 'o'] ['7', '7', '7'] 8 (Or.inl rfl)
      (Or.inr (Or.inr (Or.inr (Or.inl ⟨rfl, rfl⟩)))) (by decide) (by decide)).trans (by decide)
  · exact (c6_renderInt [] ['0', 'b'] ['1', '0', '1', '0'] 2 (Or.inl rfl)
      (Or.inr (Or.inr (Or.inr (Or.inr (Or.inr (Or.inl ⟨rfl, rfl⟩))))))
      (by decide) (by decide)).trans (by decide)
  · exact (c6_renderInt ['-'] ['0', 'x'] ['F', 'F'] 16 (Or.inr (Or.inr rfl))
      (Or.inr (Or.inl ⟨rfl, rfl⟩)) (by decide) (by decide)).trans (by decide)

/-- A well-formed integer literal in the sense claim C9 presupposes (C6's
rules): optional sign, optional base marker, then a digit string that is
nonempty and valid in the selected base. -/
def isValidIntLiteral (content : List Char) : Bool :=
  let digits := intAfterSign content
  let bd := intBaseAndDigits digits
  !bd.2.isEmpty && validDigits bd.1 bd.2

/-- C9 counterexample: `12abc` is not a valid integer literal, yet base
rendering renders it to 12 (the longest parsable digit prefix), not `NaN`. -/
theorem c9_counterexample :
    isValidIntLiteral ['1', '2', 'a', 'b', 'c'] = false ∧
    renderIntContent ['1', '2', 'a', 'b', 'c'] = RVal.vInt 12 ∧
    RVal.vInt 12 ≠ RVal.vNaN := by
  refine ⟨?_, ?_, ?_⟩ <;> decide

/-- C9 (amended): base rendering of a non-null `int` Primitive never raises an
error (in particular `InvalidNumber` is never produced): it always succeeds,
the rendered value is `NaN` exactly when JS `parseInt` finds no valid leading
digit in the selected base (for example for `abc` or an empty digit string),
and otherwise it is the signed value of the longest parsable digit prefix. -/
theorem c9_renderInt_total (an : String) (nb : Bool) (content : List Char)
    (hnn : ¬(nb = true ∧ content = nullChars)) :
    VState.renderBaseContent ⟨some "int", some an, some nb, some false, content, false, none⟩ =
      .ok ⟨some "int", some an, some nb, some false, content, false,
        some (renderIntContent content)⟩ ∧
    (renderIntContent content = RVal.vNaN ↔
      parseIntJS (intBaseAndDigits (intAfterSign content)).2
        (intBaseAndDigits (intAfterSign content)).1 = none) := by
  constructor
  · unfold VState.renderBaseContent
    rw [if_neg (by simp), if_neg (by simpa using hnn),
      if_neg (fun hcon => absurd (Option.some.inj hcon) (by decide)), if_pos rfl]
  · unfold renderIntContent
    cases hpr : parseIntJS (intBaseAndDigits (intAfterSign content)).2
        (intBaseAndDigits (intAfterSign content)).1 with
    | none => simp [hpr]
    | some v => simp [hpr]

/-- Witness for C9's amended theorem at the non-parsable content `abc`. -/
theorem c9_renderInt_total_witness :
    VState.renderBaseContent
        ⟨some "int", some "a", some false, some false, ['a', 'b', 'c'], false, none⟩ =
      .ok ⟨some "int", some "a", some false, some false, ['a', 'b', 'c'], false,
        some RVal.vNaN⟩ := by
  have h := (c9_renderInt_total "a" false ['a', 'b', 'c'] (by simp)).1
  have h2 : renderIntContent ['a', 'b', 'c'] = RVal.vNaN := by decide
  rw [h, h2]

/-! ## Value-node tree, JS string coercions, and template resolution -/

/-- A value node after parsing: the four variants `TycoValue`, `TycoArray`,
`TycoInstance`, `TycoReference`.  A reference's `rendered` slot is `none`
while it is still the `UNRENDERED` sentinel and holds the resolved instance
node afterwards. -/
inductive Node where
  | value (v : VState)
  | arr (typeName : Option String) (content : List Node)
  | inst (typeName : String) (kwargs : List (String × Node))
  | ref (typeName : String) (rendered : Option Node)

/-- First-match association-list lookup, the behaviour of `Map.prototype.get`
on the insertion-ordered maps the parser builds (keys are unique there). -/
def lookupA : List (String × Node) → String → Option Node
  | [], _ => none
  | (k, v) :: rest, a => if k = a then some v else lookupA rest a

def objectString : List Char := "[object Object]".toList

/-- `mapM` for `Except`, written structurally (left to right, first error
wins) so that concrete runs reduce. -/
def mapME {α β : Type} (f : α → Except TErr β) : List α → Except TErr (List β)
  | [] => .ok []
  | a :: rest =>
      match f a with
      | .error e => .error e
      | .ok b =>
          match mapME f rest with
          | .error e => .error e
          | .ok bs => .ok (b :: bs)

/-- JS `String(x)` on a rendered primitive (`null` prints as `"null"`).
The `vFloatRaw` case keeps the raw text (the IEEE double's printing is left
abstract; no claim reaches it). -/
def rvalToString : RVal → List Char
  | .vNull => nullChars
  | .vStr s => s
  | .vInt n => (toString n).toList
  | .vNaN => ['N', 'a', 'N']
  | .vBool true => ['t', 'r', 'u', 'e']
  | .vBool false => ['f', 'a', 'l', 's', 'e']
  | .vFloatRaw c => c

/-- `Array.prototype.join` element coercion: `null`/`undefined` become the
empty string, everything else is `String(x)`. -/
def rvalJoinString : RVal → List Char
  | .vNull => []
  | v => rvalToString v

/-- The string a node's `rendered` value contributes to a `join` (used by the
primary-key tuples).  Joining the `UNRENDERED` symbol throws a `TypeError` in
JS, modelled as `TErr.jsTypeError`; a rendered instance or reference is a
plain object (`[object Object]`); a rendered array joins its elements with
commas. -/
def nodeJoinString : Node → Except TErr (List Char)
  | .value v =>
      match v.rendered with
      | none => .error .jsTypeError
      | some rv => .ok (rvalJoinString rv)
  | .inst _ _ => .ok objectString
  | .ref _ (some _) => .ok objectString
  | .ref _ none => .error .jsTypeError
  | .arr _ content =>
      (mapME (fun x => nodeJoinString x.1) content.attach).map (List.intercalate [','])
  termination_by n => sizeOf n
  decreasing_by
    have := List.sizeOf_lt_of_mem x.2
    simp_arith
    omega

/-- JS `String(obj.rendered)` for the final template substitution.
`String(symbol)` is legal and prints the description, so the `UNRENDERED`
sentinel prints as `Symbol(unrendered)`. -/
def nodeRenderedString : Node → Except TErr (List Char)
  | .value v =>
      match v.rendered with
      | none => .ok "Symbol(unrendered)".toList
      | some rv => .ok (rvalToString rv)
  | .inst _ _ => .ok objectString
  | .ref _ (some _) => .ok objectString
  | .ref _ none => .ok "Symbol(unrendered)".toList
  | .arr _ content => (mapME nodeJoinString content).map (List.intercalate [','])

/-- An object the template walker can stand on: the globals `Map` or a value
node. -/
inductive TObj where
  | jmap (entries : List (String × Node))
  | node (n : Node)

/-- `tryGetAttr` from `renderTemplates`: a `Map` looks the key up; a
`TycoReference` must already be rendered and delegates to the target
instance's `instKwargs`; a `TycoInstance` reads its `instKwargs`; anything
else (primitives, arrays, JS `null`) yields `undefined`. -/
def tryGetAttr : Option TObj → String → Except TErr (Option TObj)
  | some (.jmap entries), a => .ok ((lookupA entries a).map TObj.node)
  | some (.node (Node.ref _ r)), a =>
      match r with
      | none => .error .unresolvedReferenceInTemplate
      | some (Node.inst _ kw) => .ok ((lookupA kw a).map TObj.node)
      | some _ => .error .jsTypeError
  | some (.node (Node.inst _ kw)), a => .ok ((lookupA kw a).map TObj.node)
  | _, _ => .ok none

def globalChars : List Char := ['g', 'l', 'o', 'b', 'a', 'l']

/-- The greedy-with-backtracking queue walk of `renderTemplates`: look the
head segment up; on a miss merge it with the next segment (re-joining the
dot); a final single miss of the literal `global` (when it was also the first
segment) switches to the globals map; otherwise the walk fails.  Every loop
iteration shortens the queue by exactly one (a hit shifts, a miss merges two
segments into one, the `global` escape shifts), so the loop is written
structurally on a counter that `resolveQueue` instantiates with the queue
length. -/
def resolveQueueFuel (globals : List (String × Node)) (first : List Char) :
    Nat → Option TObj → List (List Char) → Except TErr (Option TObj)
  | _, obj, [] => .ok obj
  | 0, _, _ :: _ => .error .jsTypeError
  | n + 1, obj, attr :: rest =>
      match tryGetAttr obj (String.mk attr) with
      | .error e => .error e
      | .ok (some v) => resolveQueueFuel globals first n (some v) rest
      | .ok none =>
          match rest with
          | second :: rest2 =>
              resolveQueueFuel globals first n obj ((attr ++ '.' :: second) :: rest2)
          | [] =>
              if attr = globalChars ∧ first = globalChars then
                .ok (some (TObj.jmap globals))
              else .error .unknownAttr

def resolveQueue (globals : List (String × Node)) (first : List Char)
    (obj : Option TObj) (q : List (List Char)) : Except TErr (Option TObj) :=
  resolveQueueFuel globals first q.length obj q

/-- The `..` parent-hop loop: each further leading dot moves one ancestor up
the chain; running past the chain's end is the `ParentOverflow` error (a hop
from JS `null` itself would be a `TypeError`). -/
def peelLoop : List Char → List TObj → Except TErr (Option TObj × List Char)
  | '.' :: _, [] => Except.error .jsTypeError
  | '.' :: _, [_] => Except.error .parentOverflow
  | '.' :: rest, _ :: s' => peelLoop rest s'
  | varPath, suffix => .ok (suffix.head?, varPath)

/-- `String.prototype.split('.')` (keeps empty segments). -/
def splitOnDot : List Char → List (List Char)
  | [] => [[]]
  | '.' :: rest => [] :: splitOnDot rest
  | c :: rest =>
      match splitOnDot rest with
      | [] => [[c]]
      | seg :: segs => (c :: seg) :: segs

/-- A `\w` character of the template regex (`[A-Za-z0-9_]`) or a dot. -/
def isWordDot (c : Char) : Bool :=
  (48 ≤ c.toNat && c.toNat ≤ 57) || (65 ≤ c.toNat && c.toNat ≤ 90) ||
    (97 ≤ c.toNat && c.toNat ≤ 122) || c = '_' || c = '.'

def tobjTypeName : TObj → Option String
  | .jmap _ => none
  | .node (Node.value v) => v.typeName
  | .node (Node.arr tn _) => tn
  | .node (Node.inst tn _) => some tn
  | .node (Node.ref tn _) => some tn

def tobjRenderedString : TObj → Except TErr (List Char)
  | .jmap _ => .ok "undefined".toList
  | .node n => nodeRenderedString n

/-- The `templateRender` callback of `renderTemplates` for one template
variable: optional `..` parent hops, dot-split into segments, the queue walk
of `resolveQueue`, the `str`/`int`-only type check, and the final
`String(obj.rendered)`. -/
def templateRenderVar (globals : List (String × Node)) (chain : List TObj)
    (templateVar : List Char) : Except TErr (List Char) := do
  let ov ←
    if templateVar.take 2 = ['.', '.'] then peelLoop (templateVar.drop 1) chain
    else Except.ok (chain.head?, templateVar)
  let parts := if ov.2.isEmpty then [] else splitOnDot ov.2
  if parts.isEmpty then Except.error .emptyTemplate
  else
    match ← resolveQueue globals (parts.headD []) ov.1 parts with
    | none => Except.error .jsTypeError
    | some obj =>
        match tobjTypeName obj with
        | some t =>
            if t = "str" ∨ t = "int" then tobjRenderedString obj
            else Except.error .untemplatableType
        | none => tobjRenderedString obj

/-- The global-regex replace of `/\x7b([\w\.]+)\x7d/g`: scan left to right,
substitute each well-formed template occurrence, leave everything else
untouched (replacements are not rescanned). -/
def templateScan (globals : List (String × Node)) (chain : List TObj) :
    List Char → Except TErr (List Char)
  | [] => .ok []
  | '{' :: rest =>
      let ident := rest.takeWhile isWordDot
      if ident ≠ [] ∧ (rest.drop ident.length).head? = some '}' then do
        let resolved ← templateRenderVar globals chain ident
        let tail ← templateScan globals chain (rest.drop (ident.length + 1))
        pure (resolved ++ tail)
      else do
        let tail ← templateScan globals chain rest
        pure ('{' :: tail)
  | c :: rest => do
      let tail ← templateScan globals chain rest
      pure (c :: tail)
  termination_by l => l.length
  decreasing_by
    all_goals simp_arith [List.length_drop]

/-- First pass of `subEscapeSequences`: the classic two-character escapes
`\\\\ \\" \\b \\t \\n \\f \\r`, replaced left to right. -/
def subBasicEscapes : List Char → List Char
  | '\\' :: c :: rest =>
      if c = '\\' then '\\' :: subBasicEscapes rest
      else if c = '"' then '"' :: subBasicEscapes rest
      else if c = 'b' then '\x08' :: subBasicEscapes rest
      else if c = 't' then '\t' :: subBasicEscapes rest
      else if c = 'n' then '\n' :: subBasicEscapes rest
      else if c = 'f' then '\x0c' :: subBasicEscapes rest
      else if c = 'r' then '\x0d' :: subBasicEscapes rest
      else '\\' :: subBasicEscapes (c :: rest)
  | c :: rest => c :: subBasicEscapes rest
  | [] => []
  termination_by l => l.length
  decreasing_by all_goals simp_arith

/-- Four hex digits (for `\\uXXXX`). -/
def hex4 : List Char → Option (Nat × List Char)
  | a :: b :: c :: d :: rest =>
      match digitValue a, digitValue b, digitValue c, digitValue d with
      | some va, some vb, some vc, some vd =>
          if va < 16 ∧ vb < 16 ∧ vc < 16 ∧ vd < 16 then
            some (va * 4096 + vb * 256 + vc * 16 + vd, rest)
          else none
      | _, _, _, _ => none
  | _ => none

/-- Eight hex digits (for `\\UXXXXXXXX`). -/
def hex8 (l : List Char) : Option (Nat × List Char) :=
  match hex4 l with
      | none => none
      | some (hi, l2) =>
          match hex4 l2 with
          | none => none
          | some (lo, rest) => some (hi * 65536 + lo, rest)

theorem hex4_length {l : List Char} {n : Nat} {r : List Char} (h : hex4 l = some (n, r)) :
    r.length + 4 = l.length := by
  match l with
  | a :: b :: c :: d :: rest =>
      simp only [hex4] at h
      rcases hva : digitValue a with _ | va <;> rw [hva] at h <;>
        rcases hvb : digitValue b with _ | vb <;> rw [hvb] at h <;>
        rcases hvc : digitValue c with _ | vc <;> rw [hvc] at h <;>
        rcases hvd : digitValue d with _ | vd <;> rw [hvd] at h <;>
        simp at h
      obtain ⟨-, -, hr⟩ := h
      subst hr
      simp
  | [] => cases h
  | [a] => cases h
  | [a, b] => cases h
  | [a, b, c] => cases h

theorem hex8_length {l : List Char} {n : Nat} {r : List Char} (h : hex8 l = some (n, r)) :
    r.length + 8 = l.length := by
  unfold hex8 at h
  rcases h1 : hex4 l with _ | ⟨hi, l2⟩ <;> rw [h1] at h <;> dsimp only at h
  · cases h
  · rcases h2 : hex4 l2 with _ | ⟨lo, rest⟩ <;> rw [h2] at h <;> dsimp only at h
    · cases h
    · injection h with h
      injection h with he hr
      subst hr
      have := hex4_length h1
      have := hex4_length h2
      omega

/-- JS `String.fromCodePoint` collapsed to one scalar value (values outside
the Unicode scalar range fall back to `Char.ofNat`'s default; a claim never
exercises them). -/
def codePointChar (n : Nat) : Char := Char.ofNat n

/-- Second pass of `subEscapeSequences`: `\\uXXXX` and `\\UXXXXXXXX`. -/
def subUnicodeEscapes : List Char → List Char
  | '\\' :: 'u' :: rest =>
      match h : hex4 rest with
      | some nr => codePointChar nr.1 :: subUnicodeEscapes nr.2
      | none => '\\' :: subUnicodeEscapes ('u' :: rest)
  | '\\' :: 'U' :: rest =>
      match h : hex8 rest with
      | some nr => codePointChar nr.1 :: subUnicodeEscapes nr.2
      | none => '\\' :: subUnicodeEscapes ('U' :: rest)
  | c :: rest => c :: subUnicodeEscapes rest
  | [] => []
  termination_by l => l.length
  decreasing_by
    all_goals simp_arith
    · have := hex4_length h
      omega
    · have := hex8_length h
      omega

/-- Third pass: `\\`-newline line-continuation elision
(`/\\\\\\s*\\r?\\n\\s*/g`): a backslash whose following whitespace run
contains a newline disappears together with that whole run. -/
def subLineContinuations : List Char → List Char
  | '\\' :: rest =>
      let ws := rest.takeWhile isJsWhitespace
      if '\n' ∈ ws then subLineContinuations (rest.drop ws.length)
      else '\\' :: subLineContinuations rest
  | c :: rest => c :: subLineContinuations rest
  | [] => []
  termination_by l => l.length
  decreasing_by
    all_goals simp_arith [List.length_drop]

/-- `subEscapeSequences` from the source: basic escapes, then unicode
escapes, then line-continuation elision. -/
def subEscapeSequences (l : List Char) : List Char :=
  subLineContinuations (subUnicodeEscapes (subBasicEscapes l))

/-- `TycoValue.renderTemplates`: literal strings and non-`str` values are
untouched; a nullable `null` is untouched; otherwise every template
occurrence in the rendered string is substituted and the escape sequences
are applied once. -/
def VState.renderTemplates (globals : List (String × Node)) (chain : List TObj)
    (v : VState) : Except TErr VState :=
  if v.typeName ≠ some "str" ∨ v.isLiteralStr = true then .ok v
  else if v.isNullable = some true ∧ v.rendered = some RVal.vNull then .ok v
  else
    match v.rendered with
    | some (RVal.vStr s) => do
        let replaced ← templateScan globals chain s
        .ok { v with rendered := some (RVal.vStr (subEscapeSequences replaced)) }
    | _ => .error .jsTypeError

/-- C1 (evaluating the code at the failing input): with a single global `g`
rendered to `X` and a value whose parent is the globals map itself, resolving
the template variable `global.g` fails with the UnknownAttr error
(`Cannot access global.g`), while `g` alone resolves to `X` — the greedy
merge branch runs before the `global`-escape branch, which is reachable only
for the single-segment path `global`, so the spec's scope escape never fires
for dotted paths. -/
theorem c1_global_escape_unreachable :
    templateRenderVar
        [("g", Node.value ⟨some "str", some "g", some false, some false,
          ['"', 'X', '"'], false, some (RVal.vStr ['X'])⟩)]
        [TObj.jmap [("g", Node.value ⟨some "str", some "g", some false, some false,
          ['"', 'X', '"'], false, some (RVal.vStr ['X'])⟩)]]
        ['g', 'l', 'o', 'b', 'a', 'l', '.', 'g'] = .error .unknownAttr ∧
    templateRenderVar
        [("g", Node.value ⟨some "str", some "g", some false, some false,
          ['"', 'X', '"'], false, some (RVal.vStr ['X'])⟩)]
        [TObj.jmap [("g", Node.value ⟨some "str", some "g", some false, some false,
          ['"', 'X', '"'], false, some (RVal.vStr ['X'])⟩)]]
        ['g'] = .ok ['X'] := by
  exact ⟨rfl, rfl⟩

theorem jsSubstring_eq (s : List Char) (a b : Int) (ha0 : 0 ≤ a) (ha : a ≤ b)
    (hb : b ≤ (s.length : Int)) :
    jsSubstring s a b = (s.drop a.toNat).take (b.toNat - a.toNat) := by
  unfold jsSubstring
  dsimp only
  have h1 : (min (max a 0) (s.length : Int)).toNat = a.toNat := by
    simp only [min_def, max_def]
    split_ifs <;> omega
  have h2 : (min (max b 0) (s.length : Int)).toNat = b.toNat := by
    simp only [min_def, max_def]
    split_ifs <;> omega
  rw [h1, h2, Nat.min_eq_left (by omega), Nat.max_eq_right (by omega), List.drop_take]

theorem startsWithL_singleton_iff (c : Char) (l : List Char) :
    startsWithL [c] l = true ↔ l.head? = some c := by
  cases l with
  | nil => simp [startsWithL]
  | cons a t =>
      simp only [startsWithL, Bool.and_eq_true, decide_eq_true_eq, List.head?_cons,
        Option.some.injEq]
      constructor
      · intro h
        exact h.1.symm
      · intro h
        exact ⟨h.symm, trivial⟩

/-- C7: a `str` Primitive delimited with `'` or `'''` (a literal string) is
left fixed by the render pipeline: base rendering marks it literal and strips
the delimiters (with the triple-quote leading-newline trim), and
`renderTemplates` performs neither template substitution nor escape
application on it, so the final rendered value is byte-identical to the
interior content after delimiter stripping and the leading-newline trim. -/
theorem c7_literal_str_fixed (globals : List (String × Node)) (chain : List TObj)
    (an : String) (nb : Bool) (content : List Char)
    (hq : content.head? = some '\'')
    (hnn : ¬(nb = true ∧ content = nullChars)) :
    VState.renderBaseContent ⟨some "str", some an, some nb, some false, content, false, none⟩ =
      .ok ⟨some "str", some an, some nb, some false, content, true,
        some (RVal.vStr (renderStrContent content))⟩ ∧
    VState.renderTemplates globals chain
        ⟨some "str", some an, some nb, some false, content, true,
          some (RVal.vStr (renderStrContent content))⟩ =
      .ok ⟨some "str", some an, some nb, some false, content, true,
        some (RVal.vStr (renderStrContent content))⟩ ∧
    (startsWithL ['\'', '\'', '\''] content = true → 6 ≤ content.length →
      renderStrContent content =
        (if ((content.drop 3).take (content.length - 6)).head? = some '\n' then
          ((content.drop 3).take (content.length - 6)).tail
        else (content.drop 3).take (content.length - 6))) ∧
    (¬startsWithL ['\'', '\'', '\''] content = true → 2 ≤ content.length →
      renderStrContent content = (content.drop 1).take (content.length - 2)) := by
  have hlit : startsWithL ['\''] content = true :=
    (startsWithL_singleton_iff '\'' content).mpr hq
  refine ⟨?_, ?_, ?_, ?_⟩
  · unfold VState.renderBaseContent
    rw [if_neg (by simp), if_neg (by simpa using hnn), if_pos rfl, hlit]
  · unfold VState.renderTemplates
    rw [if_pos (Or.inr rfl)]
  · intro htri hlen
    unfold renderStrContent
    rw [if_pos (Or.inl htri)]
    have hc3 : ((content.length : Int) - 3) = (((content.length - 3 : Nat) : Int)) := by omega
    have hs3 : jsSubstring content 3 ((content.length : Int) - 3) =
        (content.drop 3).take (content.length - 6) := by
      rw [hc3, jsSubstring_eq content 3 ((content.length - 3 : Nat) : Int) (by omega)
        (by omega) (by omega)]
      simp only [Int.toNat_natCast, Int.toNat_ofNat]
      congr 1
    rw [hs3]
    by_cases hnl : ((content.drop 3).take (content.length - 6)).head? = some '\n'
    · rw [if_pos ?hpre, if_pos hnl]
      case hpre =>
        show startsWithL EOL _ = true
        exact (startsWithL_singleton_iff '\n' _).mpr hnl
      have hne : ((content.drop 3).take (content.length - 6)).length ≠ 0 := by
        intro h0
        rw [List.head?_eq_none_iff.mpr (List.eq_nil_of_length_eq_zero h0)] at hnl
        cases hnl
      rw [jsSubstring_eq _ 1 _ (by omega) (by omega) (by omega)]
      simp only [Int.toNat_one, Int.toNat_natCast]
      rw [List.take_of_length_le (by simp), List.drop_one]
    · rw [if_neg ?hpre2, if_neg hnl]
      case hpre2 =>
        show ¬startsWithL EOL _ = true
        intro hcon
        exact hnl ((startsWithL_singleton_iff '\n' _).mp hcon)
  · intro hntri hlen
    unfold renderStrContent
    rw [if_neg ?hne, if_pos (Or.inl hlit)]
    case hne =>
      intro hcon
      rcases hcon with hcon | hcon
      · exact hntri hcon
      · obtain ⟨t, rfl⟩ : ∃ t, content = '\'' :: t := by
          cases content with
          | nil => cases hq
          | cons a t => exact ⟨t, by injection hq with hq; rw [hq]⟩
        simp only [startsWithL, Bool.and_eq_true, decide_eq_true_eq] at hcon
        exact absurd hcon.1 (by decide)
    have hc1 : ((content.length : Int) - 1) = (((content.length - 1 : Nat) : Int)) := by omega
    rw [hc1, jsSubstring_eq content 1 ((content.length - 1 : Nat) : Int) (by omega)
      (by omega) (by omega)]
    simp only [Int.toNat_natCast, Int.toNat_one]
    congr 1

/-- Witness for C7 at the literal string `'``no``'`. -/
theorem c7_literal_str_fixed_witness :
    VState.renderBaseContent ⟨some "str", some "s", some false, some false,
        ['\'', 'n', 'o', '\''], false, none⟩ =
      .ok ⟨some "str", some "s", some false, some false, ['\'', 'n', 'o', '\''], true,
        some (RVal.vStr ['n', 'o'])⟩ ∧
    VState.renderTemplates [] [] ⟨some "str", some "s", some false, some false,
        ['\'', 'n', 'o', '\''], true, some (RVal.vStr ['n', 'o'])⟩ =
      .ok ⟨some "str", some "s", some false, some false, ['\'', 'n', 'o', '\''], true,
        some (RVal.vStr ['n', 'o'])⟩ := by
  have h := c7_literal_str_fixed [] [] "s" false ['\'', 'n', 'o', '\''] rfl (by simp)
  have he : renderStrContent ['\'', 'n', 'o', '\''] = ['n', 'o'] := by rfl
  constructor
  · have h1 := h.1
    rw [he] at h1
    exact h1
  · have h2 := h.2.1
    rw [he] at h2
    exact h2

/-! ## Struct registry: primary-key index, references, serialization -/

/-- Generic first-match association lookup (`Map.prototype.get`). -/
def assocFind {α β : Type} [DecidableEq α] : List (α × β) → α → Option β
  | [], _ => none
  | (k, v) :: rest, a => if k = a then some v else assocFind rest a

/-- `Map.prototype.set`: overwrite in place when the key exists, else
append. -/
def assocSet {α β : Type} [DecidableEq α] : List (α × β) → α → β → List (α × β)
  | [], k, v => [(k, v)]
  | (k', v') :: rest, k, v =>
      if k' = k then (k, v) :: rest else (k', v') :: assocSet rest k v

/-- A declared instance (`TycoInstance`): its struct type and ordered field
map (every schema attribute is present after `resolveCompleteKwargs`). -/
structure Inst where
  typeName : String
  kwargs : List (String × Node)

def nulChar : Char := Char.ofNat 0

/-- The primary-key tuple of one declared instance:
`primaryKeys.map(k => inst.instKwargs.get(k)!.rendered).join('\0')`.
A missing field would make JS dereference `undefined.rendered`
(`TypeError`). -/
def pkKeyOf (pks : List String) (inst : Inst) : Except TErr (List Char) :=
  (mapME (fun k =>
    match lookupA inst.kwargs k with
    | some n => nodeJoinString n
    | none => Except.error .jsTypeError) pks).map (List.intercalate [nulChar])

/-- The schema and parse state of one `TycoStruct`. -/
structure Struct where
  typeName : String
  attrTypes : List (String × String)
  primaryKeys : List String
  nullableKeys : List String
  arrayKeys : List String
  instances : List Inst
  mappedInstances : List (List Char × Inst)

/-- The instance loop of `loadPrimaryKeys`: compute each tuple, fail on a
repeat, else insert and continue. -/
def pkFold (pks : List String) : List Inst → List (List Char × Inst) →
    Except TErr (List (List Char × Inst))
  | [], mapped => .ok mapped
  | inst :: rest, mapped =>
      match pkKeyOf pks inst with
      | .error e => .error e
      | .ok key =>
          if (assocFind mapped key).isSome then Except.error .duplicatePrimaryKey
          else pkFold pks rest (mapped ++ [(key, inst)])

/-- `TycoStruct.loadPrimaryKeys`: structs without primary keys build no index
and raise nothing; otherwise every instance's tuple is inserted, failing with
the DuplicatePrimaryKey error on a repeat. -/
def Struct.loadPrimaryKeys (st : Struct) : Except TErr Struct :=
  if st.primaryKeys.length = 0 then .ok st
  else
    match pkFold st.primaryKeys st.instances st.mappedInstances with
    | .error e => .error e
    | .ok mapped => .ok { st with mappedInstances := mapped }

/-- One argument of a reference `T(arg, ...)`: the optional keyword name and
the raw primitive content. -/
structure RefArg where
  attrName : Option String
  content : List Char

/-- The argument walk of `loadReference`: positional arguments map onto the
primary keys in order (an out-of-range position reaches `applySchemaInfo`
with an undefined type and fails its `BASE_TYPES` check), keyword arguments
switch to keyword mode; each argument gets its schema applied and is
base-rendered immediately. -/
def refKwargsLoop (st : Struct) :
    Nat → Bool → List (String × RVal) → List RefArg → Except TErr (List (String × RVal))
  | _, _, acc, [] => .ok acc
  | i, kwargsOnly, acc, arg :: rest =>
      match (match arg.attrName with
        | none =>
            if kwargsOnly then Except.error .positionalAfterKeyword
            else
              match st.primaryKeys.get? i with
              | some n => Except.ok (n, kwargsOnly)
              | none => Except.error .typeMismatch
        | some n => Except.ok (n, true) : Except TErr (String × Bool)) with
      | .error e => .error e
      | .ok nk =>
          match applySchemaInfoV (assocFind st.attrTypes nk.1) nk.1
              (st.nullableKeys.contains nk.1) (st.arrayKeys.contains nk.1)
              ⟨none, none, none, none, arg.content, false, none⟩ with
          | .error e => .error e
          | .ok v =>
              match v.renderBaseContent with
              | .error e => .error e
              | .ok v' =>
                  match v'.rendered with
                  | some rv => refKwargsLoop st (i + 1) nk.2 (assocSet acc nk.1 rv) rest
                  | none => Except.error .jsTypeError

/-- The primary-key tuple of a reference's rendered arguments
(`primaryKeys.map(a => instKwargs.get(a).rendered).join('\0')`; a primary key
with no argument would dereference `undefined.rendered`). -/
def refKey (st : Struct) (kwargs : List (String × RVal)) : Except TErr (List Char) :=
  (mapME (fun a =>
    match assocFind kwargs a with
    | some rv => Except.ok (rvalJoinString rv)
    | none => Except.error TErr.jsTypeError) st.primaryKeys).map
    (List.intercalate [nulChar])

/-- `TycoStruct.loadReference`: base-render the arguments, build the tuple,
look it up in `mappedInstances`; a miss is the UnknownReference error. -/
def Struct.loadReference (st : Struct) (args : List RefArg) : Except TErr Inst :=
  match refKwargsLoop st 0 false [] args with
  | .error e => .error e
  | .ok kwargs =>
      match refKey st kwargs with
      | .error e => .error e
      | .ok key =>
          match assocFind st.mappedInstances key with
          | none => Except.error .unknownReference
          | some inst => .ok inst

/-- `TycoReference.renderReferences`: refuse a second render, assert the
struct type exists, then delegate to `loadReference`. -/
def renderReference (structs : List (String × Struct)) (typeName : String)
    (instArgs : List RefArg) (rendered : Option Inst) : Except TErr Inst :=
  if rendered.isSome then .error .doubleRender
  else
    match assocFind structs typeName with
    | none => .error .badReferenceType
    | some st => st.loadReference instArgs

/-- A plain JSON-like value, the output of `toObject`/`toJSON`.
`jUndefined` stands for the `UNRENDERED` sentinel leaking through `toJSON`
(unreachable once the pipeline has run). -/
inductive JVal where
  | jNull
  | jStr (s : List Char)
  | jInt (n : Int)
  | jNaN
  | jBool (b : Bool)
  | jFloatRaw (c : List Char)
  | jArr (xs : List JVal)
  | jObj (fields : List (String × JVal))
  | jUndefined

def rvalToJSON : RVal → JVal
  | .vNull => .jNull
  | .vStr s => .jStr s
  | .vInt n => .jInt n
  | .vNaN => .jNaN
  | .vBool b => .jBool b
  | .vFloatRaw c => .jFloatRaw c

/-- `toJSON` of a value node: primitives yield their rendered value, arrays
and instances recurse, a rendered reference serializes its target. -/
def nodeToJSON : Node → JVal
  | .value v =>
      match v.rendered with
      | none => .jUndefined
      | some rv => rvalToJSON rv
  | .arr _ content => .jArr (content.attach.map (fun x => nodeToJSON x.1))
  | .inst _ kwargs => .jObj (kwargs.attach.map (fun x => (x.1.1, nodeToJSON x.1.2)))
  | .ref _ (some n) => nodeToJSON n
  | .ref _ none => .jUndefined
  termination_by n => sizeOf n
  decreasing_by
    · have := List.sizeOf_lt_of_mem x.2
      simp_arith
      omega
    · have h1 := List.sizeOf_lt_of_mem x.2
      have h2 : sizeOf x.1.2 < sizeOf x.1 := by
        obtain ⟨a, b⟩ := x.1
        simp_arith
      simp_arith
      omega
    · simp_arith

/-- The per-instance entry of `toObject`: a field-name-keyed object of
`toJSON` values (`entry[fieldName] = value.toJSON()`). -/
def instanceEntry (inst : Inst) : JVal :=
  JVal.jObj (inst.kwargs.map (fun f => (f.1, nodeToJSON f.2)))

/-- The per-struct entry of `toObject`: `struct.instances.map(...)`. -/
def structEntry (st : Struct) : JVal :=
  JVal.jArr (st.instances.map instanceEntry)

/-- `TycoContext.toObject`: globals first (keyed by attribute name), then one
entry per struct type that has at least one primary key, holding the list of
per-instance field maps in declaration order. -/
def toObject (globals : List (String × Node)) (structs : List (String × Struct)) :
    List (String × JVal) :=
  let withGlobals := globals.foldl (fun r p => assocSet r p.1 (nodeToJSON p.2)) []
  structs.foldl
    (fun r p =>
      if p.2.primaryKeys.length = 0 then r
      else assocSet r p.1 (structEntry p.2))
    withGlobals

/-! ### Facts about the primary-key index -/

theorem assocFind_append_some {α β : Type} [DecidableEq α] (l1 l2 : List (α × β)) (k : α)
    (h : (assocFind l1 k).isSome) : assocFind (l1 ++ l2) k = assocFind l1 k := by
  induction l1 with
  | nil => simp [assocFind] at h
  | cons p rest ih =>
      obtain ⟨k', v'⟩ := p
      by_cases hk : k' = k
      · simp [assocFind, hk]
      · simp only [assocFind, if_neg hk] at h
        simp only [List.cons_append, assocFind, if_neg hk]
        exact ih h

theorem assocFind_append_none {α β : Type} [DecidableEq α] (l1 l2 : List (α × β)) (k : α)
    (h : assocFind l1 k = none) : assocFind (l1 ++ l2) k = assocFind l2 k := by
  induction l1 with
  | nil => rfl
  | cons p rest ih =>
      obtain ⟨k', v'⟩ := p
      by_cases hk : k' = k
      · simp [assocFind, hk] at h
      · simp only [assocFind, if_neg hk] at h
        simp only [List.cons_append, assocFind, if_neg hk]
        exact ih h

theorem assocFind_left_none {α β : Type} [DecidableEq α] (l1 l2 : List (α × β)) (k : α)
    (h : assocFind (l1 ++ l2) k = none) : assocFind l1 k = none := by
  induction l1 with
  | nil => rfl
  | cons p rest ih =>
      obtain ⟨k', v'⟩ := p
      by_cases hk : k' = k
      · simp only [List.cons_append, assocFind, if_pos hk] at h
        cases h
      · simp only [List.cons_append, assocFind, if_neg hk] at h
        simp only [assocFind, if_neg hk]
        exact ih h

theorem assocFind_singleton {α β : Type} [DecidableEq α] (k : α) (v : β) :
    assocFind [(k, v)] k = some v := by
  simp [assocFind]

theorem pkFold_ok_facts (pks : List String) :
    ∀ (insts : List Inst) (acc res : List (List Char × Inst)),
      pkFold pks insts acc = .ok res →
      ((∀ inst ∈ insts, ∀ k, pkKeyOf pks inst = .ok k → assocFind acc k = none) ∧
       (∀ i j a b (k : List Char), i < j → insts.get? i = some a → insts.get? j = some b →
         pkKeyOf pks a = .ok k → pkKeyOf pks b = .ok k → False)) := by
  intro insts
  induction insts with
  | nil =>
      intro acc res h
      refine ⟨fun inst hmem => absurd hmem (by simp), ?_⟩
      intro i j a b k hij ha hb
      simp at ha
  | cons c cs ih =>
      intro acc res h
      cases hkc : pkKeyOf pks c with
      | error e =>
          unfold pkFold at h
          rw [hkc] at h
          exact Except.noConfusion h
      | ok kc =>
          unfold pkFold at h
          rw [hkc] at h
          dsimp only at h
          by_cases hdup : (assocFind acc kc).isSome
          · rw [if_pos hdup] at h
            exact Except.noConfusion h
          · rw [if_neg hdup] at h
            have hnone : assocFind acc kc = none := Option.not_isSome_iff_eq_none.mp hdup
            have hihf := ih (acc ++ [(kc, c)]) res h
            constructor
            · intro inst hmem k hk
              rcases List.mem_cons.mp hmem with rfl | hmem'
              · rw [hk] at hkc
                injection hkc with he
                subst he
                exact hnone
              · have h1 := hihf.1 inst hmem' k hk
                exact assocFind_left_none _ _ _ h1
            · intro i j a b k hij ha hb hka hkb
              cases i with
              | zero =>
                  cases j with
                  | zero => omega
                  | succ j' =>
                      simp only [List.get?_cons_zero, Option.some.injEq] at ha
                      subst ha
                      simp only [List.get?_cons_succ] at hb
                      have hbmem : b ∈ cs := List.get?_mem hb
                      rw [hka] at hkc
                      injection hkc with he
                      subst he
                      have h1 := hihf.1 b hbmem k hkb
                      rw [assocFind_append_none _ _ _ hnone, assocFind_singleton] at h1
                      cases h1
              | succ i' =>
                  cases j with
                  | zero => omega
                  | succ j' =>
                      simp only [List.get?_cons_succ] at ha hb
                      exact hihf.2 i' j' a b k (by omega) ha hb hka hkb

theorem pkFold_result (pks : List String) :
    ∀ (insts : List Inst) (acc : List (List Char × Inst)),
      (∀ inst ∈ insts, ∃ k, pkKeyOf pks inst = .ok k) →
      (∃ res, pkFold pks insts acc = .ok res) ∨
        pkFold pks insts acc = .error .duplicatePrimaryKey := by
  intro insts
  induction insts with
  | nil => intro acc _; exact Or.inl ⟨acc, rfl⟩
  | cons c cs ih =>
      intro acc hall
      obtain ⟨kc, hkc⟩ := hall c (by simp)
      have heq : pkFold pks (c :: cs) acc =
          (if (assocFind acc kc).isSome then
            (Except.error TErr.duplicatePrimaryKey : Except TErr (List (List Char × Inst)))
          else pkFold pks cs (acc ++ [(kc, c)])) := by
        conv_lhs => rw [pkFold]
        rw [hkc]
      rw [heq]
      by_cases hdup : (assocFind acc kc).isSome
      · rw [if_pos hdup]
        exact Or.inr rfl
      · rw [if_neg hdup]
        exact ih (acc ++ [(kc, c)]) (fun inst hm => hall inst (by simp [hm]))

/-- C3: for every struct with at least one primary key, two declared
instances with equal primary-key tuples make `loadPrimaryKeys` fail with the
DuplicatePrimaryKey error; for a struct with zero primary keys
`loadPrimaryKeys` builds no index and raises no error. -/
theorem c3_loadPrimaryKeys :
    (∀ (st : Struct) (i j : Nat) (a b : Inst) (k : List Char),
      st.primaryKeys ≠ [] →
      (∀ inst ∈ st.instances, ∃ k', pkKeyOf st.primaryKeys inst = .ok k') →
      i < j → st.instances.get? i = some a → st.instances.get? j = some b →
      pkKeyOf st.primaryKeys a = .ok k → pkKeyOf st.primaryKeys b = .ok k →
      st.loadPrimaryKeys = .error .duplicatePrimaryKey) ∧
    (∀ st : Struct, st.primaryKeys = [] → st.loadPrimaryKeys = .ok st) := by
  constructor
  · intro st i j a b k hne hall hij ha hb hka hkb
    unfold Struct.loadPrimaryKeys
    rw [if_neg (by simpa using hne)]
    rcases pkFold_result st.primaryKeys st.instances st.mappedInstances hall with ⟨res, hres⟩ | hbad
    · exact ((pkFold_ok_facts st.primaryKeys st.instances st.mappedInstances res hres).2
        i j a b k hij ha hb hka hkb).elim
    · rw [hbad]
  · intro st h
    unfold Struct.loadPrimaryKeys
    rw [if_pos (by simp [h])]

/-- Witness for C3: a duplicated key `primary` is rejected; a key-less
struct passes through untouched. -/
theorem c3_loadPrimaryKeys_witness :
    Struct.loadPrimaryKeys
        ⟨"Database", [("name", "str")], ["name"], [], [],
          [⟨"Database", [("name", Node.value ⟨some "str", some "name", some false, some false,
              "primary".toList, false, some (RVal.vStr "primary".toList)⟩)]⟩,
           ⟨"Database", [("name", Node.value ⟨some "str", some "name", some false, some false,
              "primary".toList, false, some (RVal.vStr "primary".toList)⟩)]⟩], []⟩ =
      .error .duplicatePrimaryKey ∧
    Struct.loadPrimaryKeys ⟨"Inline", [("x", "int")], [], [], [],
        [⟨"Inline", [("x", Node.value ⟨some "int", some "x", some false, some false,
          "1".toList, false, some (RVal.vInt 1)⟩)]⟩], []⟩ =
      .ok ⟨"Inline", [("x", "int")], [], [], [],
        [⟨"Inline", [("x", Node.value ⟨some "int", some "x", some false, some false,
          "1".toList, false, some (RVal.vInt 1)⟩)]⟩], []⟩ := by
  have hkey : pkKeyOf ["name"] ⟨"Database", [("name", Node.value ⟨some "str", some "name",
      some false, some false, "primary".toList, false,
      some (RVal.vStr "primary".toList)⟩)]⟩ = .ok "primary".toList := by
    simp [pkKeyOf, mapME, lookupA, nodeJoinString, rvalJoinString, rvalToString,
      Except.map, List.intercalate, List.intersperse, List.join]
  constructor
  · exact c3_loadPrimaryKeys.1 _ 0 1 _ _ ("primary".toList) (by simp)
      (by
        intro inst hmem
        rcases List.mem_cons.mp hmem with rfl | hmem'
        · exact ⟨_, hkey⟩
        · rcases List.mem_cons.mp hmem' with rfl | h0
          · exact ⟨_, hkey⟩
          · exact absurd h0 (by simp))
      (by omega) rfl rfl hkey hkey
  · exact c3_loadPrimaryKeys.2 _ rfl

/-- The first declared instance whose primary-key tuple is `k`. -/
def firstWithKey (pks : List String) (k : List Char) : List Inst → Option Inst
  | [] => none
  | inst :: rest =>
      match pkKeyOf pks inst with
      | .ok k' => if k' = k then some inst else firstWithKey pks k rest
      | .error _ => firstWithKey pks k rest

theorem pkFold_lookup (pks : List String) :
    ∀ (insts : List Inst) (acc res : List (List Char × Inst)),
      pkFold pks insts acc = .ok res → ∀ k : List Char,
      assocFind res k =
        (match assocFind acc k with
         | some v => some v
         | none => firstWithKey pks k insts) := by
  intro insts
  induction insts with
  | nil =>
      intro acc res h k
      injection h with h
      subst h
      cases hacc : assocFind acc k <;> rfl
  | cons c cs ih =>
      intro acc res h k
      cases hkc : pkKeyOf pks c with
      | error e =>
          unfold pkFold at h
          rw [hkc] at h
          exact Except.noConfusion h
      | ok kc =>
          unfold pkFold at h
          rw [hkc] at h
          dsimp only at h
          by_cases hdup : (assocFind acc kc).isSome
          · rw [if_pos hdup] at h
            exact Except.noConfusion h
          · rw [if_neg hdup] at h
            have hih := ih (acc ++ [(kc, c)]) res h k
            rw [hih]
            cases hacc : assocFind acc k with
            | some v =>
                have happ : assocFind (acc ++ [(kc, c)]) k = some v := by
                  rw [assocFind_append_some _ _ _ (by simp [hacc])]
                  exact hacc
                rw [happ]
            | none =>
                have happ : assocFind (acc ++ [(kc, c)]) k = assocFind [(kc, c)] k :=
                  assocFind_append_none _ _ _ hacc
                by_cases hkck : kc = k
                · subst hkck
                  rw [happ, assocFind_singleton]
                  simp [firstWithKey, hkc]
                · have hone : assocFind [(kc, c)] k = none := by simp [assocFind, hkck]
                  rw [happ, hone]
                  simp [firstWithKey, hkc, hkck]

theorem firstWithKey_of_get (pks : List String) :
    ∀ (insts : List Inst) (i : Nat) (inst : Inst) (k : List Char),
      insts.get? i = some inst → pkKeyOf pks inst = .ok k →
      (∀ i' j' a b (k' : List Char), i' < j' → insts.get? i' = some a →
        insts.get? j' = some b → pkKeyOf pks a = .ok k' → pkKeyOf pks b = .ok k' → False) →
      firstWithKey pks k insts = some inst := by
  intro insts
  induction insts with
  | nil => intro i inst k hi; simp at hi
  | cons c cs ih =>
      intro i inst k hi hk hdist
      cases i with
      | zero =>
          simp only [List.get?_cons_zero, Option.some.injEq] at hi
          subst hi
          simp [firstWithKey, hk]
      | succ i' =>
          simp only [List.get?_cons_succ] at hi
          cases hc : pkKeyOf pks c with
          | ok kc =>
              by_cases hkck : kc = k
              · subst hkck
                exact ((hdist 0 (i' + 1) c inst kc (by omega) rfl (by simpa using hi)
                  hc hk).elim)
              · have hrec := ih i' inst k hi hk
                  (fun i1 j1 a b k1 h1 h2 h3 h4 h5 =>
                    hdist (i1 + 1) (j1 + 1) a b k1 (by omega) (by simpa using h2)
                      (by simpa using h3) h4 h5)
                simp [firstWithKey, hc, hkck, hrec]
          | error e =>
              have hrec := ih i' inst k hi hk
                (fun i1 j1 a b k1 h1 h2 h3 h4 h5 =>
                  hdist (i1 + 1) (j1 + 1) a b k1 (by omega) (by simpa using h2)
                    (by simpa using h3) h4 h5)
              simp [firstWithKey, hc, hrec]

theorem firstWithKey_none (pks : List String) (k : List Char) :
    ∀ insts : List Inst, (∀ inst ∈ insts, ¬(pkKeyOf pks inst = .ok k)) →
      firstWithKey pks k insts = none := by
  intro insts
  induction insts with
  | nil => intro _; rfl
  | cons c cs ih =>
      intro h
      cases hc : pkKeyOf pks c with
      | ok kc =>
          have hkck : ¬(kc = k) := fun he => h c (by simp) (by rw [hc, he])
          simp [firstWithKey, hc, hkck, ih (fun inst hm => h inst (by simp [hm]))]
      | error e =>
          simp [firstWithKey, hc, ih (fun inst hm => h inst (by simp [hm]))]

/-- C4: once the primary-key index has been built, a reference `T(args)`
resolves to the declared instance whose primary-key tuple (joined with the
NUL separator) equals the base-rendered arguments' tuple — regardless of the
position of that instance's row in the declaration order — and when no such
instance exists the resolution fails with the UnknownReference error. -/
theorem c4_loadReference :
    ∀ (st st' : Struct) (args : List RefArg) (kwargs : List (String × RVal)) (k : List Char),
      st.primaryKeys ≠ [] →
      st.mappedInstances = [] →
      st.loadPrimaryKeys = .ok st' →
      refKwargsLoop st' 0 false [] args = .ok kwargs →
      refKey st' kwargs = .ok k →
      ((∀ (i : Nat) (inst : Inst), st.instances.get? i = some inst →
          pkKeyOf st.primaryKeys inst = .ok k → st'.loadReference args = .ok inst) ∧
       ((∀ inst ∈ st.instances, ¬(pkKeyOf st.primaryKeys inst = .ok k)) →
          st'.loadReference args = .error .unknownReference)) := by
  intro st st' args kwargs k hne hm0 hlpk hkw hkey
  unfold Struct.loadPrimaryKeys at hlpk
  rw [if_neg (by simpa using hne)] at hlpk
  cases hpf : pkFold st.primaryKeys st.instances st.mappedInstances with
  | error e =>
      rw [hpf] at hlpk
      exact Except.noConfusion hlpk
  | ok mapped =>
      rw [hpf] at hlpk
      have h2 : (Except.ok { st with mappedInstances := mapped } : Except TErr Struct) =
          .ok st' := hlpk
      injection h2 with h2
      subst h2
      have hload : Struct.loadReference { st with mappedInstances := mapped } args =
          (match assocFind mapped k with
           | none => Except.error TErr.unknownReference
           | some inst => Except.ok inst) := by
        unfold Struct.loadReference
        rw [hkw]
        dsimp only
        rw [hkey]
      rw [hm0] at hpf
      have hlk := pkFold_lookup st.primaryKeys st.instances [] mapped hpf k
      have hlk' : assocFind mapped k = firstWithKey st.primaryKeys k st.instances := by
        rw [hlk]
        rfl
      constructor
      · intro i inst hi hk
        have hdist := (pkFold_ok_facts st.primaryKeys st.instances [] mapped hpf).2
        have hfw := firstWithKey_of_get st.primaryKeys st.instances i inst k hi hk hdist
        rw [hload, hlk', hfw]
      · intro hnone
        have hfw := firstWithKey_none st.primaryKeys k st.instances hnone
        rw [hload, hlk', hfw]

/-- A rendered `str` field node, for concrete examples. -/
def sampleNode (an s : String) : Node :=
  Node.value ⟨some "str", some an, some false, some false, s.toList, false,
    some (RVal.vStr s.toList)⟩

def dbInst1 : Inst :=
  ⟨"Database", [("name", sampleNode "name" "primary"), ("host", sampleNode "host" "localhost")]⟩

def dbInst2 : Inst :=
  ⟨"Database", [("name", sampleNode "name" "replica"), ("host", sampleNode "host" "rep")]⟩

def dbStruct : Struct :=
  ⟨"Database", [("name", "str"), ("host", "str")], ["name"], [], [], [dbInst1, dbInst2], []⟩

def dbStructIndexed : Struct :=
  { dbStruct with mappedInstances := [("primary".toList, dbInst1), ("replica".toList, dbInst2)] }

/-- Witness for C4: `Database(replica)` resolves to the second declared
instance; `Database(missing)` is the UnknownReference error. -/
theorem c4_loadReference_witness :
    Struct.loadReference dbStructIndexed [⟨none, "replica".toList⟩] = .ok dbInst2 ∧
    Struct.loadReference dbStructIndexed [⟨none, "missing".toList⟩] =
      .error .unknownReference := by
  have hk1 : pkKeyOf ["name"] dbInst1 = .ok "primary".toList := by
    simp [pkKeyOf, mapME, lookupA, nodeJoinString, rvalJoinString, rvalToString,
      Except.map, List.intercalate, List.intersperse, List.join, dbInst1, sampleNode]
  have hk2 : pkKeyOf ["name"] dbInst2 = .ok "replica".toList := by
    simp [pkKeyOf, mapME, lookupA, nodeJoinString, rvalJoinString, rvalToString,
      Except.map, List.intercalate, List.intersperse, List.join, dbInst2, sampleNode]
  have hpks : dbStruct.primaryKeys = ["name"] := rfl
  have hpf : pkFold ["name"] [dbInst1, dbInst2] [] =
      .ok [("primary".toList, dbInst1), ("replica".toList, dbInst2)] := by
    simp [pkFold, hk1, hk2, assocFind]
  have hlpk : dbStruct.loadPrimaryKeys = .ok dbStructIndexed := by
    unfold Struct.loadPrimaryKeys
    rw [if_neg (by simp [hpks])]
    rw [show pkFold dbStruct.primaryKeys dbStruct.instances dbStruct.mappedInstances =
      .ok [("primary".toList, dbInst1), ("replica".toList, dbInst2)] from hpf]
    rfl
  have hkw1 : refKwargsLoop dbStructIndexed 0 false [] [⟨none, "replica".toList⟩] =
      .ok [("name", RVal.vStr "replica".toList)] := by rfl
  have hkey1 : refKey dbStructIndexed [("name", RVal.vStr "replica".toList)] =
      .ok "replica".toList := by rfl
  have hkw2 : refKwargsLoop dbStructIndexed 0 false [] [⟨none, "missing".toList⟩] =
      .ok [("name", RVal.vStr "missing".toList)] := by rfl
  have hkey2 : refKey dbStructIndexed [("name", RVal.vStr "missing".toList)] =
      .ok "missing".toList := by rfl
  constructor
  · exact (c4_loadReference dbStruct dbStructIndexed [⟨none, "replica".toList⟩]
      [("name", RVal.vStr "replica".toList)] ("replica".toList)
      (by simp [hpks]) rfl hlpk hkw1 hkey1).1 1 dbInst2 rfl (by rw [hpks]; exact hk2)
  · refine (c4_loadReference dbStruct dbStructIndexed [⟨none, "missing".toList⟩]
      [("name", RVal.vStr "missing".toList)] ("missing".toList)
      (by simp [hpks]) rfl hlpk hkw2 hkey2).2 ?_
    intro inst hmem
    have hmem' : inst = dbInst1 ∨ inst = dbInst2 := by
      simpa [dbStruct] using hmem
    rcases hmem' with rfl | rfl
    · intro hcon
      rw [hpks, hk1] at hcon
      simp at hcon
    · intro hcon
      rw [hpks, hk2] at hcon
      simp at hcon

/-! ### C5: the shape of the returned top-level object -/

theorem assocFind_assocSet_same {A B : Type} [DecidableEq A] (l : List (A × B)) (k : A)
    (v : B) : assocFind (assocSet l k v) k = some v := by
  induction l with
  | nil => simp [assocSet, assocFind]
  | cons p rest ih =>
      obtain ⟨k', v'⟩ := p
      by_cases hk : k' = k
      · simp [assocSet, assocFind, hk]
      · simp [assocSet, assocFind, hk, ih]

theorem assocFind_assocSet_other {A B : Type} [DecidableEq A] (l : List (A × B)) (k k' : A)
    (v : B) (h : k ≠ k') : assocFind (assocSet l k v) k' = assocFind l k' := by
  induction l with
  | nil => simp [assocSet, assocFind, h]
  | cons p rest ih =>
      obtain ⟨k0, v0⟩ := p
      by_cases hk : k0 = k
      · subst hk
        simp [assocSet, assocFind, h]
      · by_cases hk' : k0 = k'
        · simp [assocSet, assocFind, hk, hk', Ne.symm h]
        · simp [assocSet, assocFind, hk, hk', ih]

/-- A fold whose every step leaves the lookup at `k` unchanged leaves the
lookup at `k` unchanged. -/
theorem assocFind_foldl_fixed {A B S : Type} [DecidableEq A]
    (step : List (A × B) → S → List (A × B)) (k : A) :
    ∀ (l : List S) (init : List (A × B)),
      (∀ p ∈ l, ∀ r, assocFind (step r p) k = assocFind r k) →
      assocFind (l.foldl step init) k = assocFind init k := by
  intro l
  induction l with
  | nil => intro init _; rfl
  | cons c cs ih =>
      intro init h
      rw [List.foldl_cons, ih _ (fun p hp r => h p (List.mem_cons_of_mem c hp) r)]
      exact h c (List.mem_cons_self c cs) init

/-- The struct half of the `toObject` fold: under distinct type names, a
struct with primary keys lands under its own name. -/
theorem toObject_fold_mem (T : String) (st : Struct) :
    ∀ (structs : List (String × Struct)) (init : List (String × JVal)),
      (structs.map Prod.fst).Nodup →
      (T, st) ∈ structs →
      st.primaryKeys.length ≠ 0 →
      assocFind (structs.foldl
        (fun r p => if p.2.primaryKeys.length = 0 then r else assocSet r p.1 (structEntry p.2))
        init) T = some (structEntry st) := by
  intro structs
  induction structs with
  | nil => intro init _ hmem _; simp at hmem
  | cons c cs ih =>
      intro init hnd hmem hpk
      rw [List.foldl_cons]
      rcases List.mem_cons.mp hmem with heq | hmem'
      · cases heq
        have hnot : T ∉ cs.map Prod.fst := (List.nodup_cons.mp hnd).1
        have hfix : ∀ p ∈ cs, ∀ r : List (String × JVal),
            assocFind (if p.2.primaryKeys.length = 0 then r
              else assocSet r p.1 (structEntry p.2)) T = assocFind r T := by
          intro p hp r
          have hne : p.1 ≠ T := fun hT => hnot (hT ▸ List.mem_map_of_mem Prod.fst hp)
          by_cases h0 : p.2.primaryKeys.length = 0
          · rw [if_pos h0]
          · rw [if_neg h0]
            exact assocFind_assocSet_other r p.1 T (structEntry p.2) hne
        rw [assocFind_foldl_fixed _ T cs _ hfix]
        simp only [if_neg hpk]
        exact assocFind_assocSet_same init T (structEntry st)
      · exact ih _ (List.nodup_cons.mp hnd).2 hmem' hpk

/-- C5: in the object returned by `toObject`, every struct type with at
least one primary key (type names being distinct, as they key a Map) maps to
the list of its instances' field objects in declaration order, whose length
is the number of declared instance rows; and a type name carried only by
zero-primary-key structs (and by no global) is absent from the result. -/
theorem c5_toObject (globals : List (String × Node)) (structs : List (String × Struct))
    (T : String) :
    ((structs.map Prod.fst).Nodup →
      ∀ st : Struct, (T, st) ∈ structs → st.primaryKeys ≠ [] →
        assocFind (toObject globals structs) T =
          some (JVal.jArr (st.instances.map instanceEntry)) ∧
        (st.instances.map instanceEntry).length = st.instances.length) ∧
    ((∀ g ∈ globals, g.1 ≠ T) →
      (∀ p ∈ structs, p.1 = T → p.2.primaryKeys = []) →
      assocFind (toObject globals structs) T = none) := by
  constructor
  · intro hnd st hmem hpk
    refine ⟨?_, by simp⟩
    show assocFind (toObject globals structs) T = some (structEntry st)
    simp only [toObject]
    exact toObject_fold_mem T st structs _ hnd hmem
      (fun h => hpk (List.length_eq_zero.mp h))
  · intro hg hs
    simp only [toObject]
    rw [assocFind_foldl_fixed _ T structs _ ?hstructs,
        assocFind_foldl_fixed _ T globals _ ?hglobals]
    · rfl
    case hstructs =>
      intro p hp r
      by_cases h0 : p.2.primaryKeys.length = 0
      · rw [if_pos h0]
      · have hne : p.1 ≠ T := fun hT => h0 (by rw [hs p hp hT]; rfl)
        rw [if_neg h0]
        exact assocFind_assocSet_other r p.1 T (structEntry p.2) hne
    case hglobals =>
      intro p hp r
      exact assocFind_assocSet_other r p.1 T (nodeToJSON p.2) (hg p hp)

/-- An inline-only struct type: two int attributes, no primary keys. -/
def ptStruct : Struct :=
  ⟨"Point", [("x", "int"), ("y", "int")], [], [], [], [], []⟩

/-- Witness for C5: with structs Database (one primary key, two instances)
and Point (no primary keys), the top-level object maps "Database" to its
instance list and has no "Point" key. -/
theorem c5_toObject_witness :
    assocFind (toObject [] [("Database", dbStruct), ("Point", ptStruct)]) "Database" =
      some (JVal.jArr (dbStruct.instances.map instanceEntry)) ∧
    assocFind (toObject [] [("Database", dbStruct), ("Point", ptStruct)]) "Point" = none := by
  constructor
  · exact ((c5_toObject [] [("Database", dbStruct), ("Point", ptStruct)] "Database").1
      (by decide) dbStruct (List.mem_cons_self _ _) (by decide)).1
  · refine (c5_toObject [] [("Database", dbStruct), ("Point", ptStruct)] "Point").2
      (by intro g hg; simp at hg) ?_
    intro p hp hT
    have hp' : p = ("Database", dbStruct) ∨ p = ("Point", ptStruct) := by simpa using hp
    rcases hp' with rfl | rfl
    · exact absurd hT (by decide)
    · rfl

/-! ### C2: termination on cyclic include chains -/

/-- The include skeleton of a file system: each path maps to the list of
`#include` targets appearing in that file, in order (every other line kind
is irrelevant to the recursion through `fromPath`). -/
def cycFS : String → List String := fun p =>
  if p = "a.tyco" then ["b.tyco"]
  else if p = "b.tyco" then ["a.tyco"]
  else []

mutual

/-- Fuel-indexed skeleton of `TycoLexer.fromPath`: on a cache miss the file
is read and fully processed, and only then is the path added to the cache
(`context.pathCache.set` runs after `lexer.process()` returns). `none`
means the fuel ran out before the call returned. -/
def fromPathFuel (fsys : String → List String) : Nat → List String → String →
    Option (List String)
  | 0, _, _ => none
  | fuel + 1, cache, p =>
      if p ∈ cache then some cache
      else
        match processIncludesFuel fsys fuel cache (fsys p) with
        | none => none
        | some cache' => some (p :: cache')

/-- The `#include` branch of `TycoLexer.process`: each directive recurses
through `fromPath` before the loop continues. -/
def processIncludesFuel (fsys : String → List String) : Nat → List String →
    List String → Option (List String)
  | _, cache, [] => some cache
  | 0, _, _ :: _ => none
  | fuel + 1, cache, inc :: rest =>
      match fromPathFuel fsys fuel cache inc with
      | none => none
      | some cache' => processIncludesFuel fsys fuel cache' rest

end

/-- C2: on the two-file cycle `a.tyco` includes `b.tyco` includes `a.tyco`,
`fromPath` never returns: since the path cache is populated only after
`process()` completes, the second visit to `a.tyco` misses the cache and
re-processes the file, so no amount of fuel makes the recursion return. -/
theorem c2_include_cycle (fuel : Nat) :
    ∀ cache : List String, "a.tyco" ∉ cache → "b.tyco" ∉ cache →
      fromPathFuel cycFS fuel cache "a.tyco" = none ∧
      fromPathFuel cycFS fuel cache "b.tyco" = none := by
  induction fuel using Nat.strong_induction_on with
  | _ fuel ih =>
    cases fuel with
    | zero => intro cache _ _; exact ⟨rfl, rfl⟩
    | succ n =>
      intro cache ha hb
      constructor
      · simp only [fromPathFuel]
        rw [if_neg ha, show cycFS "a.tyco" = ["b.tyco"] from rfl]
        cases n with
        | zero => rfl
        | succ m =>
            simp only [processIncludesFuel]
            rw [(ih m (by omega) cache ha hb).2]
      · simp only [fromPathFuel]
        rw [if_neg hb, show cycFS "b.tyco" = ["a.tyco"] from rfl]
        cases n with
        | zero => rfl
        | succ m =>
            simp only [processIncludesFuel]
            rw [(ih m (by omega) cache ha hb).1]

/-- Witness for C2: starting from an empty path cache, the cyclic include
pair exhausts any concrete fuel bound. -/
theorem c2_include_cycle_witness :
    fromPathFuel cycFS 1000 [] "a.tyco" = none ∧
    fromPathFuel cycFS 1000 [] "b.tyco" = none :=
  c2_include_cycle 1000 [] (by simp) (by simp)

end Tyco
